import Mathlib

/-!
Verification development for the shed card-game server.

The definitions in this file are a shallow embedding of `shed_game.py` and
`prob_model.py`.  Python card strings such as `'h07'` are in bijection with
pairs of a suit letter and a numeric rank; we model them as a `Card`
structure, and `get_card_rank` becomes the `rank` projection.  Python lists
are Lean lists (with `list.pop()` popping from the end), the rule-catalog
dict is an association list, Python `set`s of cards are `Finset Card`, and
exceptions are modelled with `Except`, where the error value carries the
state at the moment the exception was raised (Python mutations performed
before the raise persist).  Probabilities (Python floats) are modelled as
exact rationals; every float operation the claims touch (comparison with
`0.0`, assignment of `0.0`/`1.0`, products of values in `[0,1]`) is exact
in IEEE arithmetic, so `ℚ` is a faithful model of those operations.
-/

/-- The four suit letters `h`, `d`, `c`, `s` used in card strings. -/
inductive Suit
| h
| d
| c
| s
deriving DecidableEq

/-- Index of a suit in the order used by `prob_model.card_to_index`. -/
def Suit.index : Suit → Nat
| Suit.h => 0
| Suit.d => 1
| Suit.c => 2
| Suit.s => 3

/-- A card string `f'{suit}{rank:02}'`: a suit letter followed by a rank.
`get_card_rank` from `shed_game.py` is the `rank` projection. -/
structure Card where
  suit : Suit
  rank : Nat
deriving DecidableEq

/-- `get_card_rank(card)` extracts the numeric rank of a (non-empty) card
string; on `Card` values this is the `rank` field. -/
def get_card_rank (card : Card) : Nat := card.rank

/-- `MagicAbilities` enum from `shed_game.py`. -/
inductive MagicAbilities
| BURN
| RESET
| LOWER_THAN
| INVISIBLE
deriving DecidableEq

/-- `MagicCard` from `shed_game.py`: ability, set of ranks it may be played
on (a Python `set`, used only for membership tests, modelled as a list),
and whether the effect is immediate. -/
structure MagicCard where
  magic_ability : MagicAbilities
  playable_on : List Nat
  is_effect_now : Bool
deriving DecidableEq

/-- Lookup in the magic-card dict (`card_rank in magic` / `magic[card_rank]`). -/
def magicLookup (magic : List (Nat × MagicCard)) (r : Nat) : Option MagicCard :=
  (magic.find? (fun pr => pr.fst == r)).map Prod.snd

/-- The shipped module-level `magic_cards` dict of `shed_game.py`:
rank 2 = RESET on 2..14, rank 3 = INVISIBLE on 2..14,
rank 7 = LOWER_THAN on 2..7, rank 10 = BURN on 2..14 (immediate). -/
def magic_cards : List (Nat × MagicCard) :=
  [ (2, { magic_ability := MagicAbilities.RESET, playable_on := List.range' 2 13, is_effect_now := false }),
    (3, { magic_ability := MagicAbilities.INVISIBLE, playable_on := List.range' 2 13, is_effect_now := false }),
    (7, { magic_ability := MagicAbilities.LOWER_THAN, playable_on := List.range' 2 6, is_effect_now := false }),
    (10, { magic_ability := MagicAbilities.BURN, playable_on := List.range' 2 13, is_effect_now := true }) ]

/-- `PlayerState` from `shed_game.py`. -/
structure PlayerState where
  name : String
  cards_hand : List Card
  cards_face_up : List Card
  cards_face_down : List Card
deriving DecidableEq

/-- `PlayerState.is_winner`: all three piles empty. -/
def PlayerState.is_winner (p : PlayerState) : Bool :=
  p.cards_hand.isEmpty && p.cards_face_up.isEmpty && p.cards_face_down.isEmpty

/-- `TableCards` piles. -/
structure TableCards where
  deck : List Card
  stack_discard : List Card
  stack_play : List Card
deriving DecidableEq

/-- The freshly constructed deck of `TableCards.__init__`:
`[f'{suit}{i:02}' for i in range(2, 15) for suit in ['h','d','c','s']]`
(outer loop over ranks 2..14, inner loop over the four suits). -/
def full_deck : List Card :=
  (List.range' 2 13).flatMap (fun i =>
    [ { suit := Suit.h, rank := i }, { suit := Suit.d, rank := i },
      { suit := Suit.c, rank := i }, { suit := Suit.s, rank := i } ])

/-- An atomic action processed by `complete_turn` or recorded in the game
history: Python `None`, the pickup literal `'#'`, a card string, or the
burn marker `'*'` (only ever *recorded*; passing `'*'` as an input action
makes `get_card_rank` raise `ValueError` on `int('')`). -/
inductive GAction
| none
| pickup
| play (c : Card)
| burn
deriving DecidableEq

/-- Python exception kinds raised by the modelled code: `IndexError` /
`KeyError` from list or dict indexing, `ValueError`, and plain
`Exception` (raised by `ProbabilisticModel.move_card`). -/
inductive PyErr
| indexError
| valueError
| exception
deriving DecidableEq

/-- `GameState` from `shed_game.py`.  `game_history` is modelled by its
only part the modelled operations ever read back: per round, per player
index, the list of recorded atomic actions (`rounds`).  The full-state
snapshots written by `store_game_state` are never read by any modelled
operation and are not tracked.  `last_cards` starts as the Python list
`[]`, which compares unequal to every `set`; we model it as an `Option`
that starts out `none`. -/
structure GameState where
  magic : List (Nat × MagicCard)
  player_states : List PlayerState
  table_cards : TableCards
  start_index : Nat
  turn_index : Nat
  round_index : Nat
  rounds : List (List (List GAction))
  same_cards_count : Nat
  last_cards : Option (Finset Card)
  is_game_over : Bool
  winning_order : List String
deriving DecidableEq

/-- `GameState.__init__(players, magic_cards)`: one `PlayerState` per
player name, a fresh `TableCards`, all counters zero.  (`game_history`
holds no rounds until `start_game` creates them.) -/
def GameState.initial (names : List String) (magic : List (Nat × MagicCard)) : GameState :=
  { magic := magic,
    player_states := names.map (fun n => { name := n, cards_hand := [], cards_face_up := [], cards_face_down := [] }),
    table_cards := { deck := full_deck, stack_discard := [], stack_play := [] },
    start_index := 0,
    turn_index := 0,
    round_index := 0,
    rounds := [],
    same_cards_count := 0,
    last_cards := Option.none,
    is_game_over := false,
    winning_order := [] }

/-- Python `list.pop()`: removes and returns the last element
(`IndexError`, i.e. `Option.none`, on an empty list). -/
def pyPop (l : List Card) : Option (Card × List Card) :=
  match l.getLast? with
  | Option.none => Option.none
  | Option.some x => Option.some (x, l.dropLast)

/-- Python `min(l, default=d)`: the minimum of the list, or `d` when the
list is empty. -/
def pyMin (l : List Nat) (d : Nat) : Nat :=
  match l.min? with
  | Option.none => d
  | Option.some m => m

/-- Python `list.index(x)`: index of the first occurrence. -/
def pyIndex (l : List Nat) (x : Nat) : Nat := List.indexOf x l

/-- `GameState.get_lowest_card(player_state)`: minimum rank among hand
cards whose rank is not a magic rank, default 15. -/
def GameState.get_lowest_card (gs : GameState) (p : PlayerState) : Nat :=
  pyMin ((p.cards_hand.filter (fun c => (magicLookup gs.magic c.rank).isNone)).map Card.rank) 15

/-- `GameState.choose_first_player`: minimum of the per-player lowest
cards; if that minimum is 15 return `turn_index`, otherwise the first
index attaining it.  `min` of an empty list raises `ValueError`. -/
def GameState.choose_first_player (gs : GameState) : Except PyErr Nat :=
  let lowest_cards := gs.player_states.map (fun p => gs.get_lowest_card p)
  match lowest_cards.min? with
  | Option.none => Except.error PyErr.valueError
  | Option.some min_card =>
      if min_card = 15 then Except.ok gs.turn_index
      else Except.ok (pyIndex lowest_cards min_card)

/-- Whether a rank is an `INVISIBLE` magic card (the skip condition of
`find_effective_top_card`). -/
def isInvisibleRank (magic : List (Nat × MagicCard)) (r : Nat) : Bool :=
  match magicLookup magic r with
  | Option.none => false
  | Option.some mc => mc.magic_ability == MagicAbilities.INVISIBLE

/-- `GameState.find_effective_top_card`: first card of the reversed play
stack that is not an INVISIBLE magic card (`None` if there is none). -/
def GameState.find_effective_top_card (gs : GameState) : Option Card :=
  gs.table_cards.stack_play.reverse.find? (fun c => !(isInvisibleRank gs.magic c.rank))

/-- `GameState.can_play_card(card)` (lines 274-303 of `shed_game.py`).
Raises `IndexError` when the opening-lead branch indexes an out-of-range
`turn_index`.  The Python guard `if not effective_top_card_rank` is true
both for `None` and for a rank of `0`. -/
def GameState.can_play_card (gs : GameState) (card : Card) : Except PyErr Bool :=
  let card_rank := get_card_rank card
  let effective_top_card := gs.find_effective_top_card
  let effective_top_card_rank := effective_top_card.map get_card_rank
  -- Filter cards for lowest if on first round
  if gs.round_index = 1 ∧ gs.start_index = gs.turn_index then
    match gs.player_states[gs.turn_index]? with
    | Option.none => Except.error PyErr.indexError
    | Option.some p => Except.ok (card_rank == gs.get_lowest_card p)
  else
    match effective_top_card_rank with
    | Option.none => Except.ok true
    | Option.some etr =>
      if etr = 0 then Except.ok true
      else
        match magicLookup gs.magic card_rank with
        | Option.some mc =>
            if !(mc.playable_on.contains etr) then Except.ok false else Except.ok true
        | Option.none =>
          match magicLookup gs.magic etr with
          | Option.some top_magic_card =>
              if top_magic_card.magic_ability == MagicAbilities.LOWER_THAN ∧ card_rank > etr then
                Except.ok false
              else Except.ok true
          | Option.none =>
              if card_rank < etr then Except.ok false else Except.ok true

/-- Effectful filter used to model list comprehensions over
`can_play_card` (which can raise). -/
def filterCanPlay (gs : GameState) : List Card → Except PyErr (List Card)
| [] => Except.ok []
| c :: rest =>
  match gs.can_play_card c with
  | Except.error e => Except.error e
  | Except.ok b =>
    match filterCanPlay gs rest with
    | Except.error e => Except.error e
    | Except.ok tl => Except.ok (if b then c :: tl else tl)

/-- `GameState.get_playable_cards(player_index)`: the playable subset of
the first non-empty pile in priority order; Python returns `None` when
all three piles are empty. -/
def GameState.get_playable_cards (gs : GameState) (player_index : Nat) : Except PyErr (Option (List Card)) :=
  match gs.player_states[player_index]? with
  | Option.none => Except.error PyErr.indexError
  | Option.some p =>
    if !p.cards_hand.isEmpty then
      match filterCanPlay gs p.cards_hand with
      | Except.error e => Except.error e
      | Except.ok l => Except.ok (Option.some l)
    else if !p.cards_face_up.isEmpty then
      match filterCanPlay gs p.cards_face_up with
      | Except.error e => Except.error e
      | Except.ok l => Except.ok (Option.some l)
    else if !p.cards_face_down.isEmpty then
      match filterCanPlay gs p.cards_face_down with
      | Except.error e => Except.error e
      | Except.ok l => Except.ok (Option.some l)
    else Except.ok Option.none

/-- `GameState.burn_play_stack`: move the entire play stack to the discard
stack (returns the `'*'` marker, modelled by the caller). -/
def GameState.burn_play_stack (gs : GameState) : GameState :=
  { gs with table_cards :=
      { gs.table_cards with
        stack_discard := gs.table_cards.stack_discard ++ gs.table_cards.stack_play,
        stack_play := [] } }

/-- `GameState.check_last_four`: the last four cards of the play stack
exist and share a single rank (`len({ranks}) == 1`). -/
def GameState.check_last_four (gs : GameState) : Bool :=
  if gs.table_cards.stack_play.length < 4 then false
  else
    (((gs.table_cards.stack_play.drop (gs.table_cards.stack_play.length - 4)).map get_card_rank).toFinset).card == 1

/-- `GameState.next_turn`: `(turn_index + 1) % len(player_states)`. -/
def GameState.next_turn (gs : GameState) : GameState :=
  { gs with turn_index := (gs.turn_index + 1) % gs.player_states.length }

/-- The pile-priority removal step of `play_card` (lines 320-330): take
the card out of the first of the acting player's piles that contains it,
refilling the hand from a non-empty deck only when the card came from
the hand, and return the updated player together with the remaining
deck; `(None, deck)` stands for the final `else: raise ValueError`. -/
def GameState.play_card_move (gs : GameState) (p : PlayerState) (card : Card) :
    Option PlayerState × List Card :=
  if card ∈ p.cards_hand then
    match pyPop gs.table_cards.deck with
    | Option.some (top, deck') =>
        (Option.some { p with cards_hand := (p.cards_hand.erase card) ++ [top] }, deck')
    | Option.none =>
        (Option.some { p with cards_hand := p.cards_hand.erase card }, gs.table_cards.deck)
  else if card ∈ p.cards_face_up then
    (Option.some { p with cards_face_up := p.cards_face_up.erase card }, gs.table_cards.deck)
  else if card ∈ p.cards_face_down then
    (Option.some { p with cards_face_down := p.cards_face_down.erase card }, gs.table_cards.deck)
  else (Option.none, gs.table_cards.deck)

/-- The state updates of `play_card` lines 319-332 once the moved player
`p'` and remaining deck `deck'` are known: install the updated player and
deck and append the played card to the play stack. -/
def GameState.after_move (gs : GameState) (p' : PlayerState) (deck' : List Card) (card : Card) : GameState :=
  let tc' : TableCards :=
    { gs.table_cards with deck := deck', stack_play := gs.table_cards.stack_play ++ [card] }
  { gs with player_states := gs.player_states.set gs.turn_index p', table_cards := tc' }

/-- The burn checks at the end of `play_card` (lines 334-342), run on the
state `gs1` in which the card has already moved to the play stack: an
immediate-effect BURN magic card, or four of a kind on top, burns the
stack; the `Bool` is `true` for the `'*'` result and `false` for `''`. -/
def GameState.play_card_finish (gs1 : GameState) (card : Card) : Bool × GameState :=
  match magicLookup gs1.magic (get_card_rank card) with
  | Option.some mc =>
    if mc.is_effect_now && (mc.magic_ability == MagicAbilities.BURN) then
      (true, gs1.burn_play_stack)
    else if gs1.check_last_four then (true, gs1.burn_play_stack)
    else (false, gs1)
  | Option.none =>
    if gs1.check_last_four then (true, gs1.burn_play_stack)
    else (false, gs1)

/-- `GameState.play_card(card)` (lines 313-342): validate, move the card
from the acting player's first pile containing it to the play stack
(refilling the hand from the deck when playing from the hand), then fire
immediate BURN effects and the four-of-a-kind burn.  The returned `Bool`
is `true` when the result is the `'*'` burn marker, `false` for `''`.
Errors carry the state at the raise (no mutation precedes either raise). -/
def GameState.play_card (gs : GameState) (card : Card) : Except (PyErr × GameState) (Bool × GameState) :=
  match gs.can_play_card card with
  | Except.error e => Except.error (e, gs)
  | Except.ok false => Except.error (PyErr.valueError, gs)
  | Except.ok true =>
    match gs.player_states[gs.turn_index]? with
    | Option.none => Except.error (PyErr.indexError, gs)
    | Option.some p =>
      match gs.play_card_move p card with
      | (Option.none, _) => Except.error (PyErr.valueError, gs)
      | (Option.some p', deck') => Except.ok ((gs.after_move p' deck' card).play_card_finish card)

/-- `GameState.append_player_actions(action)`: append to
`rounds[round_index][turn_index]` (IndexError / KeyError when the round
or the player entry is missing). -/
def GameState.append_player_actions (gs : GameState) (action : GAction) : Except (PyErr × GameState) GameState :=
  match gs.rounds[gs.round_index]? with
  | Option.none => Except.error (PyErr.indexError, gs)
  | Option.some rnd =>
    match rnd[gs.turn_index]? with
    | Option.none => Except.error (PyErr.indexError, gs)
    | Option.some lst =>
      Except.ok { gs with rounds := gs.rounds.set gs.round_index (rnd.set gs.turn_index (lst ++ [action])) }

/-- `GameState.get_player_last_action`: last recorded action of the
current player in the current round (`None` when the list is empty). -/
def GameState.get_player_last_action (gs : GameState) : Except PyErr (Option GAction) :=
  match gs.rounds[gs.round_index]? with
  | Option.none => Except.error PyErr.indexError
  | Option.some rnd =>
    match rnd[gs.turn_index]? with
    | Option.none => Except.error PyErr.indexError
    | Option.some lst => Except.ok lst.getLast?

/-- `GameState.store_game_state`: writes the full-state snapshot into
`rounds[round_index]`.  The snapshot content is never read back by any
modelled operation; only the IndexError on a missing round is kept. -/
def GameState.store_game_state (gs : GameState) : Except (PyErr × GameState) GameState :=
  if gs.round_index < gs.rounds.length then Except.ok gs
  else Except.error (PyErr.indexError, gs)

/-- `GameState.create_round`: append a fresh round with one empty action
list per player index. -/
def GameState.create_round (gs : GameState) : GameState :=
  { gs with rounds := gs.rounds ++ [List.replicate gs.player_states.length []] }

/-- `GameState.check_same_cards`: once the deck is empty, compare the set
of all hand cards plus the play stack with the previous comparison; after
10 consecutive equal rounds set `is_game_over`. -/
def GameState.check_same_cards (gs : GameState) : GameState :=
  if !gs.table_cards.deck.isEmpty then gs
  else
    let current_cards : Finset Card :=
      (gs.player_states.flatMap (fun p => p.cards_hand)).toFinset ∪ gs.table_cards.stack_play.toFinset
    let gs1 : GameState :=
      if gs.last_cards = Option.some current_cards then
        { gs with same_cards_count := gs.same_cards_count + 1 }
      else
        { gs with last_cards := Option.some current_cards, same_cards_count := 0 }
    if gs1.same_cards_count = 10 then { gs1 with is_game_over := true } else gs1

/-- `GameState.check_game_over`: append newly finished players to
`winning_order`; if at most one player is unfinished, set `is_game_over`. -/
def GameState.check_game_over (gs : GameState) : GameState :=
  let wo := gs.player_states.foldl
    (fun acc p => if p.is_winner && !(acc.contains p.name) then acc ++ [p.name] else acc)
    gs.winning_order
  let unfinished := (gs.player_states.filter (fun p => !p.is_winner)).length
  { gs with winning_order := wo,
            is_game_over := if unfinished ≤ 1 then true else gs.is_game_over }

/-- `GameState.check_round_start`: when control is back at `start_index`,
store a snapshot, open a new round, advance `round_index` and run the
stalemate check. -/
def GameState.check_round_start (gs : GameState) : Except (PyErr × GameState) GameState :=
  if gs.turn_index = gs.start_index then
    match gs.store_game_state with
    | Except.error e => Except.error e
    | Except.ok gs1 =>
      let gs2 := gs1.create_round
      let gs3 := { gs2 with round_index := gs2.round_index + 1 }
      Except.ok gs3.check_same_cards
  else Except.ok gs

/-- `GameState.init_turn` (lines 116-131): possibly choose the first
player (only while `turn_index == start_index` in round 1), run the
round-boundary logic, then report the acting player's options:
`[None]` for a finished player, the playable cards, or `['#']`. -/
def GameState.init_turn (gs : GameState) : Except (PyErr × GameState) (List GAction × GameState) :=
  let chosen : Except (PyErr × GameState) GameState :=
    if gs.turn_index = gs.start_index ∧ gs.round_index = 1 then
      match gs.choose_first_player with
      | Except.error e => Except.error (e, gs)
      | Except.ok i => Except.ok { gs with start_index := i, turn_index := i }
    else Except.ok gs
  match chosen with
  | Except.error e => Except.error e
  | Except.ok gsA =>
    match gsA.check_round_start with
    | Except.error e => Except.error e
    | Except.ok gsB =>
      match gsB.player_states[gsB.turn_index]? with
      | Option.none => Except.error (PyErr.indexError, gsB)
      | Option.some p =>
        if p.is_winner then Except.ok ([GAction.none], gsB)
        else
          match gsB.get_playable_cards gsB.turn_index with
          | Except.error e => Except.error (e, gsB)
          | Except.ok (Option.some (c :: cs)) => Except.ok ((c :: cs).map GAction.play, gsB)
          | Except.ok _ => Except.ok ([GAction.pickup], gsB)

/-- One iteration of the `for action in actions` loop of
`complete_turn`.  A `'*'` input action reaches `play_card`, whose
`can_play_card` call raises `ValueError` on `int('')`. -/
def GameState.run_action (gs : GameState) (action : GAction) : Except (PyErr × GameState) GameState :=
  match action with
  | GAction.none => Except.ok gs
  | GAction.pickup =>
    match gs.player_states[gs.turn_index]? with
    | Option.none => Except.error (PyErr.indexError, gs)
    | Option.some p =>
      let p' := { p with cards_hand := p.cards_hand ++ gs.table_cards.stack_play }
      let gs1 : GameState :=
        { gs with player_states := gs.player_states.set gs.turn_index p',
                  table_cards := { gs.table_cards with stack_play := [] } }
      gs1.append_player_actions GAction.pickup
  | GAction.play c =>
    match gs.play_card c with
    | Except.error e => Except.error e
    | Except.ok (result, gs1) =>
      match gs1.append_player_actions (GAction.play c) with
      | Except.error e => Except.error e
      | Except.ok gs2 =>
        if result then
          match gs2.get_player_last_action with
          | Except.error e => Except.error (e, gs2)
          | Except.ok la =>
            if la ≠ Option.some GAction.burn then gs2.append_player_actions GAction.burn
            else Except.ok gs2
        else Except.ok gs2
  | GAction.burn => Except.error (PyErr.valueError, gs)

/-- The `for action in actions` loop of `complete_turn`. -/
def GameState.run_actions (gs : GameState) : List GAction → Except (PyErr × GameState) GameState
| [] => Except.ok gs
| a :: rest =>
  match gs.run_action a with
  | Except.error e => Except.error e
  | Except.ok gs1 => gs1.run_actions rest

/-- Lines 153-154 of `complete_turn`: run `check_game_over` when the
acting player has just finished.  (`player_state` is the alias bound at
line 135; the loop never changes `turn_index`, so reading the player at
`turn_index` after the loop sees the same object.) -/
def GameState.winner_check (gs1 : GameState) : GameState :=
  match gs1.player_states[gs1.turn_index]? with
  | Option.some p => if p.is_winner then gs1.check_game_over else gs1
  | Option.none => gs1

/-- `GameState.complete_turn(actions)` (lines 133-163).  Line 135 indexes
`player_states[turn_index]` up front; the loop processes the actions;
then the winner / game-over checks run, and unless the game ended the
turn advances when the first action was `None` or the last recorded
action is not the burn marker.  `actions[0]` on an empty list raises
`IndexError`. -/
def GameState.complete_turn (gs : GameState) (actions : List GAction) : Except (PyErr × GameState) GameState :=
  match gs.player_states[gs.turn_index]? with
  | Option.none => Except.error (PyErr.indexError, gs)
  | Option.some _ =>
    match gs.run_actions actions with
    | Except.error e => Except.error e
    | Except.ok gs1 =>
      let gs2 := gs1.winner_check
      if gs2.is_game_over then
        match gs2.store_game_state with
        | Except.error e => Except.error e
        | Except.ok gs3 => Except.ok gs3
      else
        match actions.head? with
        | Option.none => Except.error (PyErr.indexError, gs2)
        | Option.some a0 =>
          if a0 = GAction.none then Except.ok gs2.next_turn
          else
            match gs2.get_player_last_action with
            | Except.error e => Except.error (e, gs2)
            | Except.ok la =>
              if la ≠ Option.some GAction.burn then Except.ok gs2.next_turn
              else Except.ok gs2

/-- One iteration of the `for _ in range(3)` body of `deal_cards`: three
`deck.pop()`s feeding hand, face-up and face-down.  A pop from an empty
deck raises `IndexError`; the error value carries the partially dealt
deck and player, matching Python's in-place mutation. -/
def deal_iter (s : List Card × PlayerState) : Except (List Card × PlayerState) (List Card × PlayerState) :=
  match pyPop s.fst with
  | Option.none => Except.error s
  | Option.some (c1, d1) =>
    let p1 := { s.snd with cards_hand := s.snd.cards_hand ++ [c1] }
    match pyPop d1 with
    | Option.none => Except.error (d1, p1)
    | Option.some (c2, d2) =>
      let p2 := { p1 with cards_face_up := p1.cards_face_up ++ [c2] }
      match pyPop d2 with
      | Option.none => Except.error (d2, p2)
      | Option.some (c3, d3) =>
        Except.ok (d3, { p2 with cards_face_down := p2.cards_face_down ++ [c3] })

/-- The three iterations of the inner deal loop for one player. -/
def deal_player (s : List Card × PlayerState) : Except (List Card × PlayerState) (List Card × PlayerState) :=
  match deal_iter s with
  | Except.error e => Except.error e
  | Except.ok s1 =>
    match deal_iter s1 with
    | Except.error e => Except.error e
    | Except.ok s2 => deal_iter s2

/-- The outer `for player_state in self.player_states` loop of
`deal_cards`, threading the shrinking deck through the player list. -/
def deal_list (deck : List Card) : List PlayerState → Except (List Card × List PlayerState) (List Card × List PlayerState)
| [] => Except.ok (deck, [])
| p :: rest =>
  match deal_player (deck, p) with
  | Except.error (d', p') => Except.error (d', p' :: rest)
  | Except.ok (d', p') =>
    match deal_list d' rest with
    | Except.error (d'', rest') => Except.error (d'', p' :: rest')
    | Except.ok (d'', rest') => Except.ok (d'', p' :: rest')

/-- `GameState.deal_cards`. -/
def GameState.deal_cards (gs : GameState) : Except (PyErr × GameState) GameState :=
  match deal_list gs.table_cards.deck gs.player_states with
  | Except.error (d', ps') =>
      Except.error (PyErr.indexError,
        { gs with player_states := ps', table_cards := { gs.table_cards with deck := d' } })
  | Except.ok (d', ps') =>
      Except.ok { gs with player_states := ps', table_cards := { gs.table_cards with deck := d' } }

/-- `GameState.start_game` (lines 99-111).  The shuffle
`deck_shuffle(seed)` permutes the deck in place with a seed-determined
permutation; the resulting order is passed in as `shuffled` (reachability
quantifies over all permutations).  The timestamp bookkeeping and the
`seeds.txt` write are I/O that no modelled operation reads back.  A fresh
`'rounds': []` list is created, then the cards are dealt, round 0 is
created and snapshotted, and round 1 is opened. -/
def GameState.start_game (gs : GameState) (shuffled : List Card) : Except (PyErr × GameState) GameState :=
  let gs0 : GameState :=
    { gs with table_cards := { gs.table_cards with deck := shuffled }, rounds := [] }
  match gs0.deal_cards with
  | Except.error e => Except.error e
  | Except.ok gs1 =>
    let gs2 := gs1.create_round
    match gs2.store_game_state with
    | Except.error e => Except.error e
    | Except.ok gs3 =>
      let gs4 : GameState := { gs3 with round_index := gs3.round_index + 1 }
      Except.ok gs4.create_round

/-- All cards owned by one player, as a multiset. -/
def pcards (p : PlayerState) : Multiset Card :=
  (p.cards_hand : Multiset Card) + (p.cards_face_up : Multiset Card) + (p.cards_face_down : Multiset Card)

/-- The multiset union of the deck, the play stack, the discard stack and
every player's three piles. -/
def allCards (gs : GameState) : Multiset Card :=
  (gs.table_cards.deck : Multiset Card) + (gs.table_cards.stack_play : Multiset Card) +
    (gs.table_cards.stack_discard : Multiset Card) + (gs.player_states.map pcards).sum

/-- The reachable game states of the engine: a fresh `GameState` whose
deck was shuffled (any permutation of the constructor's deck), started
with `start_game`, followed by any sequence of `init_turn` /
`complete_turn` calls that return without raising. -/
inductive Reachable : GameState → Prop
| start (names : List String) (magic : List (Nat × MagicCard)) (shuffled : List Card) (gs' : GameState) :
    shuffled.Perm full_deck →
    GameState.start_game (GameState.initial names magic) shuffled = Except.ok gs' →
    Reachable gs'
| init_turn (gs : GameState) (moves : List GAction) (gs' : GameState) :
    Reachable gs →
    GameState.init_turn gs = Except.ok (moves, gs') →
    Reachable gs'
| complete_turn (gs : GameState) (actions : List GAction) (gs' : GameState) :
    Reachable gs →
    GameState.complete_turn gs actions = Except.ok gs' →
    Reachable gs'

/-- A card-string argument as passed around `prob_model.py`: the empty
string (its "no card" marker), the pickup literal `'#'`, or a real card. -/
inductive PCard
| noCard
| pickup
| card (c : Card)
deriving DecidableEq

/-- `card_to_index` from `prob_model.py`: `60` for no card, `52` for
`'#'`, otherwise `(rank - 2) + 13 * suit_index`. -/
def card_to_index (card : PCard) : Nat :=
  match card with
  | PCard.noCard => 60
  | PCard.pickup => 52
  | PCard.card c => (c.rank - 2) + 13 * c.suit.index

/-- The suit list `['h', 'd', 'c', 's']` indexed by `index // 13`
(`IndexError`, i.e. `none`, past the end). -/
def suitOfIndex : Nat → Option Suit
| 0 => Option.some Suit.h
| 1 => Option.some Suit.d
| 2 => Option.some Suit.c
| 3 => Option.some Suit.s
| _ => Option.none

/-- `index_to_card` from `prob_model.py`: `52 ↦ '#'`, `60 ↦ ''`,
otherwise rank `index % 13 + 2` and suit `suits[index // 13]`. -/
def index_to_card (index : Nat) : Option PCard :=
  if index = 52 then Option.some PCard.pickup
  else if index = 60 then Option.some PCard.noCard
  else
    match suitOfIndex (index / 13) with
    | Option.none => Option.none
    | Option.some st => Option.some (PCard.card { suit := st, rank := index % 13 + 2 })

/-- The nine location keys of `ProbabilisticModel.card_probabilities`. -/
inductive Loc
| player_hand
| opponent_hand
| player_face_up
| opponent_face_up
| player_face_down
| opponent_face_down
| discarded
| play_stack
| deck
deriving DecidableEq

/-- The insertion order of the `card_probabilities` dict keys, i.e. the
iteration order of `for loc in self.card_probabilities`. -/
def locOrder : List Loc :=
  [Loc.player_hand, Loc.opponent_hand, Loc.player_face_up, Loc.opponent_face_up,
   Loc.player_face_down, Loc.opponent_face_down, Loc.discarded, Loc.play_stack, Loc.deck]

/-- `ProbabilisticModel` from `prob_model.py`: a length-52 probability
vector per location plus the unseen bookkeeping.  Floats are modelled as
exact rationals. -/
structure ProbabilisticModel where
  card_probabilities : Loc → List ℚ
  unseen_cards : List ℚ
  deck_count : Int
  player_unseen_hand_count : Int
  opponent_unseen_hand_count : Int
  player_face_down_count : Int
  opponent_face_down_count : Int
  top_card : PCard

/-- `ProbabilisticModel.__init__`: all mass on the deck, everything
unseen. -/
def ProbabilisticModel.fresh : ProbabilisticModel :=
  { card_probabilities := fun loc => if loc = Loc.deck then List.replicate 52 1 else List.replicate 52 0,
    unseen_cards := List.replicate 52 1,
    deck_count := 52,
    player_unseen_hand_count := 0,
    opponent_unseen_hand_count := 0,
    player_face_down_count := 0,
    opponent_face_down_count := 0,
    top_card := PCard.noCard }

/-- Pointwise update of the location-indexed probability table. -/
def updLoc (probs : Loc → List ℚ) (l : Loc) (v : List ℚ) : Loc → List ℚ :=
  fun x => if x = l then v else probs x

/-- The `for loc in self.card_probabilities` assignment loop of
`move_card`: write probability 1 at `to_loc` and 0 elsewhere, location
by location in dict order; an out-of-range index raises `IndexError`
mid-loop, keeping the writes already performed. -/
def setAllLocs (probs : Loc → List ℚ) (idx : Nat) (to_loc : Loc) :
    List Loc → Except (Loc → List ℚ) (Loc → List ℚ)
| [] => Except.ok probs
| l :: rest =>
  if idx < (probs l).length then
    setAllLocs (updLoc probs l ((probs l).set idx (if l = to_loc then 1 else 0))) idx to_loc rest
  else Except.error probs

/-- The unseen-card bookkeeping of `move_card` (lines 60-74): on first
certainty (`unseen == 1.0`) clear the unseen flag and decrement the
bucket counter matching `from_loc`; record the new top card when moving
onto the play stack. -/
def ProbabilisticModel.move_bookkeeping (m : ProbabilisticModel) (card_str : PCard)
    (from_loc to_loc : Loc) (card_index : Nat) (u : ℚ) : ProbabilisticModel :=
  let m1 : ProbabilisticModel :=
    if u = 1 then
      let m0 := { m with unseen_cards := m.unseen_cards.set card_index 0 }
      if from_loc = Loc.deck then { m0 with deck_count := m0.deck_count - 1 }
      else if from_loc = Loc.player_hand then { m0 with player_unseen_hand_count := m0.player_unseen_hand_count - 1 }
      else if from_loc = Loc.opponent_hand then { m0 with opponent_unseen_hand_count := m0.opponent_unseen_hand_count - 1 }
      else if from_loc = Loc.player_face_down then { m0 with player_face_down_count := m0.player_face_down_count - 1 }
      else if from_loc = Loc.opponent_face_down then { m0 with opponent_face_down_count := m0.opponent_face_down_count - 1 }
      else m0
    else m
  if to_loc = Loc.play_stack then { m1 with top_card := card_str } else m1

/-- `ProbabilisticModel.move_card(card_str, from_loc, to_loc)` (lines
54-77): raise a plain `Exception` when the card has zero probability at
`from_loc` (before any mutation), otherwise clear the unseen flag and
the matching bucket counter on first certainty, record the new top card
when moving onto the play stack, and set the card's probability to 1 at
`to_loc` and 0 at every other location. -/
def ProbabilisticModel.move_card (m : ProbabilisticModel) (card_str : PCard) (from_loc to_loc : Loc) :
    Except (PyErr × ProbabilisticModel) ProbabilisticModel :=
  let card_index := card_to_index card_str
  match (m.card_probabilities from_loc)[card_index]? with
  | Option.none => Except.error (PyErr.indexError, m)
  | Option.some pr =>
    if pr = 0 then Except.error (PyErr.exception, m)
    else
      match m.unseen_cards[card_index]? with
      | Option.none => Except.error (PyErr.indexError, m)
      | Option.some u =>
        let m2 : ProbabilisticModel := m.move_bookkeeping card_str from_loc to_loc card_index u
        match setAllLocs m2.card_probabilities card_index to_loc locOrder with
        | Except.error probs' => Except.error (PyErr.indexError, { m2 with card_probabilities := probs' })
        | Except.ok probs' => Except.ok { m2 with card_probabilities := probs' }

/-- Modelled from the spec: the function `can_play_card(card_str,
top_card, magic_cards)` that `prob_model.py` imports from `shed_game`
does not exist in `shed_game.py` (only the `GameState` method does, with
a different signature).  Following the spec's legality algorithm
(§4.1 steps 2-4) with the supplied top card standing for the effective
top card: with no top card any candidate is legal; a candidate whose
rank has an ability is legal iff the top rank is in that ability's
playable-onto set; else a `ConstrainLower` top admits exactly the ranks
≤ its own and any other ability on top imposes no constraint; else the
candidate rank must be ≥ the top rank.  A non-card top (the model's
initial `''`) counts as no top card. -/
def can_play_card_free (card : Card) (top_card : PCard) (magic : List (Nat × MagicCard)) : Bool :=
  match top_card with
  | PCard.card t =>
    match magicLookup magic card.rank with
    | Option.some mc => mc.playable_on.contains t.rank
    | Option.none =>
      match magicLookup magic t.rank with
      | Option.some tmc =>
        if tmc.magic_ability == MagicAbilities.LOWER_THAN then decide (card.rank ≤ t.rank)
        else true
      | Option.none => decide (card.rank ≥ t.rank)
  | _ => true

/-- The `for card_index, card_prob in enumerate(...)` filter loop of
`get_playable_probability`: keep the cards with nonzero probability that
are playable on `top_card`, in index order.  `card_prob != 0` is
evaluated before the legality call, mirroring the Python short-circuit;
a pickup/no-card entry reaching the legality check raises (the missing
free function would call `get_card_rank` on it). -/
def collect_playable (top_card : PCard) (magic : List (Nat × MagicCard)) :
    List (Nat × ℚ) → Except PyErr (List (PCard × ℚ))
| [] => Except.ok []
| (i, pr) :: rest =>
  match index_to_card i with
  | Option.none => Except.error PyErr.indexError
  | Option.some pc =>
    if pr = 0 then collect_playable top_card magic rest
    else
      match pc with
      | PCard.card c =>
        match collect_playable top_card magic rest with
        | Except.error e => Except.error e
        | Except.ok tl =>
            Except.ok (if can_play_card_free c top_card magic then (PCard.card c, pr) :: tl else tl)
      | _ => Except.error PyErr.valueError

/-- One entry of the `get_playable_probability` filter, as a function of
a single `(card_index, card_prob)` pair: the candidate kept for that
pair, if any.  `collect_playable` is proved equal to `filterMap` of this
(on in-range indices). -/
def playable_entry (top_card : PCard) (magic : List (Nat × MagicCard)) (e : Nat × ℚ) :
    Option (PCard × ℚ) :=
  match index_to_card e.fst with
  | Option.some (PCard.card c) =>
    if e.snd ≠ 0 ∧ can_play_card_free c top_card magic then Option.some (PCard.card c, e.snd)
    else Option.none
  | _ => Option.none

/-- The playable candidates (`playable_card_probs`) of
`ProbabilisticModel.get_playable_probability(loc, top_card)`. -/
def ProbabilisticModel.playable_card_probs (m : ProbabilisticModel) (loc : Loc) (top_card : PCard) :
    Except PyErr (List (PCard × ℚ)) :=
  collect_playable top_card magic_cards (m.card_probabilities loc).enum

/-- `ProbabilisticModel.get_playable_probability(loc, top_card)` (lines
101-119): `0.0` when no candidate survives the filter, otherwise
`1 - Π (1 - p_i)` over the candidates' probabilities.  (The Python
returns the candidate map and its keys alongside the probability; the
claims concern the probability, and the candidates are exposed
separately as `playable_card_probs`.) -/
def ProbabilisticModel.get_playable_probability (m : ProbabilisticModel) (loc : Loc) (top_card : PCard) :
    Except PyErr ℚ :=
  match m.playable_card_probs loc top_card with
  | Except.error e => Except.error e
  | Except.ok [] => Except.ok 0
  | Except.ok l => Except.ok (1 - (l.map (fun pr => 1 - pr.snd)).prod)

/-- Decidable equality of `Except` results, used to evaluate the modelled
operations on concrete inputs. -/
instance exceptDecEq {α β : Type} [DecidableEq α] [DecidableEq β] : DecidableEq (Except α β) :=
  fun a b =>
    match a, b with
    | Except.ok x, Except.ok y =>
        if h : x = y then Decidable.isTrue (by rw [h]) else Decidable.isFalse (by simp [h])
    | Except.error x, Except.error y =>
        if h : x = y then Decidable.isTrue (by rw [h]) else Decidable.isFalse (by simp [h])
    | Except.ok _, Except.error _ => Decidable.isFalse (by simp)
    | Except.error _, Except.ok _ => Decidable.isFalse (by simp)

/-- Extract the resulting state of a game operation (default for the
error case, used only to name concrete successful results). -/
def resultState (r : Except (PyErr × GameState) GameState) (d : GameState) : GameState :=
  match r with
  | Except.ok g => g
  | Except.error _ => d

/-- The most recent action recorded for player `pidx` in the current
round (the data `get_player_last_action` reads, as a total function). -/
def recorded_last (gs : GameState) (pidx : Nat) : Option GAction :=
  match gs.rounds[gs.round_index]? with
  | Option.none => Option.none
  | Option.some rnd =>
    match rnd[pidx]? with
    | Option.none => Option.none
    | Option.some lst => lst.getLast?

/-- Number of players whose piles are not all empty. -/
def unfinished_count (gs : GameState) : Nat :=
  (gs.player_states.filter (fun p => !p.is_winner)).length

/-- Well-formedness of a belief model: every probability vector has the
52 entries the constructor gives it. -/
def ProbabilisticModel.wf (m : ProbabilisticModel) : Prop :=
  (∀ loc : Loc, (m.card_probabilities loc).length = 52) ∧ m.unseen_cards.length = 52

/-- A mid-game position: player 0 (to act) holds h05 and h06, player 1
has finished, player 2 holds h09; empty table piles, round 2. -/
def gsC2 : GameState :=
  { magic := magic_cards,
    player_states :=
      [ { name := "P0", cards_hand := [{ suit := Suit.h, rank := 5 }, { suit := Suit.h, rank := 6 }],
          cards_face_up := [], cards_face_down := [] },
        { name := "P1", cards_hand := [], cards_face_up := [], cards_face_down := [] },
        { name := "P2", cards_hand := [{ suit := Suit.h, rank := 9 }],
          cards_face_up := [], cards_face_down := [] } ],
    table_cards := { deck := [], stack_discard := [], stack_play := [] },
    start_index := 0,
    turn_index := 0,
    round_index := 2,
    rounds := [[[], [], []], [[], [], []], [[], [], []]],
    same_cards_count := 0,
    last_cards := Option.none,
    is_game_over := false,
    winning_order := [] }

/-- The state after player 0 of `gsC2` plays h05. -/
def gsC2' : GameState :=
  resultState (gsC2.complete_turn [GAction.play { suit := Suit.h, rank := 5 }]) gsC2

/-- A position whose effective top card is the 7 of hearts (round 2, so
the opening-lead branch does not apply). -/
def gsC3 : GameState :=
  { magic := magic_cards,
    player_states :=
      [ { name := "P0", cards_hand := [{ suit := Suit.s, rank := 10 }],
          cards_face_up := [], cards_face_down := [] } ],
    table_cards := { deck := [], stack_discard := [], stack_play := [{ suit := Suit.h, rank := 7 }] },
    start_index := 0,
    turn_index := 0,
    round_index := 2,
    rounds := [[[]], [[]], [[]]],
    same_cards_count := 0,
    last_cards := Option.none,
    is_game_over := false,
    winning_order := [] }

/-- An opening-lead position (round 1, starting player to act) whose
hand is d05, h09, c12 — lowest non-ability rank 5. -/
def gsC4 : GameState :=
  { magic := magic_cards,
    player_states :=
      [ { name := "P0",
          cards_hand := [{ suit := Suit.d, rank := 5 }, { suit := Suit.h, rank := 9 }, { suit := Suit.c, rank := 12 }],
          cards_face_up := [], cards_face_down := [] } ],
    table_cards := { deck := [], stack_discard := [], stack_play := [] },
    start_index := 0,
    turn_index := 0,
    round_index := 1,
    rounds := [[[]], [[]]],
    same_cards_count := 0,
    last_cards := Option.none,
    is_game_over := false,
    winning_order := [] }

/-- A position whose play stack ends with a 9 covered by an invisible 3
(round 2, opening lead not in force). -/
def gsC5w : GameState :=
  { magic := magic_cards,
    player_states :=
      [ { name := "P0", cards_hand := [{ suit := Suit.c, rank := 8 }],
          cards_face_up := [], cards_face_down := [] } ],
    table_cards := { deck := [], stack_discard := [],
                     stack_play := [{ suit := Suit.h, rank := 9 }, { suit := Suit.h, rank := 3 }] },
    start_index := 0,
    turn_index := 0,
    round_index := 2,
    rounds := [[[]], [[]], [[]]],
    same_cards_count := 0,
    last_cards := Option.none,
    is_game_over := false,
    winning_order := [] }

/-- A freshly dealt two-player position for the first-player rule:
player 0's hand holds only the ability rank 10, player 1 holds the 4 of
hearts. -/
def gsC8w : GameState :=
  { magic := magic_cards,
    player_states :=
      [ { name := "P0", cards_hand := [{ suit := Suit.h, rank := 10 }],
          cards_face_up := [], cards_face_down := [] },
        { name := "P1", cards_hand := [{ suit := Suit.h, rank := 4 }],
          cards_face_up := [], cards_face_down := [] } ],
    table_cards := { deck := [], stack_discard := [], stack_play := [] },
    start_index := 0,
    turn_index := 0,
    round_index := 1,
    rounds := [[[], []], [[], []]],
    same_cards_count := 0,
    last_cards := Option.none,
    is_game_over := false,
    winning_order := [] }

/-- A plain in-progress one-player position used to witness the
empty-action behaviour of `complete_turn`. -/
def gsC10w : GameState :=
  { magic := magic_cards,
    player_states :=
      [ { name := "P0", cards_hand := [{ suit := Suit.h, rank := 5 }],
          cards_face_up := [], cards_face_down := [] },
        { name := "P1", cards_hand := [{ suit := Suit.h, rank := 6 }],
          cards_face_up := [], cards_face_down := [] } ],
    table_cards := { deck := [], stack_discard := [], stack_play := [] },
    start_index := 0,
    turn_index := 0,
    round_index := 1,
    rounds := [[[], []], [[], []]],
    same_cards_count := 0,
    last_cards := Option.none,
    is_game_over := false,
    winning_order := [] }

/-- The state reached by starting a two-player game on the unshuffled
deck (the identity permutation). -/
def gsC1w : GameState :=
  resultState ((GameState.initial ["A", "B"] magic_cards).start_game full_deck)
    (GameState.initial [] [])

theorem pyPop_eq {l r : List Card} {x : Card} (h : pyPop l = Option.some (x, r)) :
    l = r ++ [x] := by
  unfold pyPop at h
  cases hl : l.getLast? with
  | none => rw [hl] at h; exact absurd h (by simp)
  | some y =>
    rw [hl] at h
    have hne : l ≠ [] := by
      intro he
      rw [he] at hl
      exact absurd hl (by simp)
    rw [List.getLast?_eq_getLast l hne] at hl
    have hy : y = x := congrArg Prod.fst (Option.some.inj h)
    have hr : l.dropLast = r := congrArg Prod.snd (Option.some.inj h)
    have hcat := List.dropLast_concat_getLast hne
    rw [hr, Option.some.inj hl, hy] at hcat
    exact hcat.symm

theorem coe_pyPop {l r : List Card} {x : Card} (h : pyPop l = Option.some (x, r)) :
    (l : Multiset Card) = (r : Multiset Card) + {x} := by
  rw [pyPop_eq h]
  rfl

theorem erase_add_single {l : List Card} {a : Card} (h : a ∈ l) :
    ((l.erase a : List Card) : Multiset Card) + {a} = (l : Multiset Card) := by
  rw [← Multiset.coe_erase, add_comm, Multiset.singleton_add]
  exact Multiset.cons_erase (Multiset.mem_coe.mpr h)

theorem sum_map_set {α β : Type} [AddCommMonoid β] (f : α → β) :
    ∀ (l : List α) (i : Nat) (a b : α), l[i]? = Option.some a →
      ((l.set i b).map f).sum + f a = (l.map f).sum + f b := by
  intro l
  induction l with
  | nil => intro i a b h; simp at h
  | cons x xs ih =>
    intro i a b h
    cases i with
    | zero =>
      simp at h
      subst h
      simp only [List.set_cons_zero, List.map_cons, List.sum_cons]
      abel
    | succ n =>
      simp at h
      simp only [List.set_cons_succ, List.map_cons, List.sum_cons]
      calc f x + ((xs.set n b).map f).sum + f a
          = f x + (((xs.set n b).map f).sum + f a) := by abel
        _ = f x + ((xs.map f).sum + f b) := by rw [ih n a b h]
        _ = f x + (xs.map f).sum + f b := by abel

theorem allCards_burn (gs : GameState) : allCards gs.burn_play_stack = allCards gs := by
  unfold allCards GameState.burn_play_stack
  rw [Multiset.coe_nil]
  rw [show ((gs.table_cards.stack_discard ++ gs.table_cards.stack_play : List Card) : Multiset Card)
      = (gs.table_cards.stack_discard : Multiset Card) + (gs.table_cards.stack_play : Multiset Card) from rfl]
  abel

theorem finish_cases {gs1 : GameState} {c : Card} {b : Bool} {gs' : GameState}
    (h : gs1.play_card_finish c = (b, gs')) :
    gs' = gs1 ∨ gs' = gs1.burn_play_stack := by
  unfold GameState.play_card_finish at h
  split at h
  · split_ifs at h
    · exact Or.inr (congrArg Prod.snd h).symm
    · exact Or.inr (congrArg Prod.snd h).symm
    · exact Or.inl (congrArg Prod.snd h).symm
  · split_ifs at h
    · exact Or.inr (congrArg Prod.snd h).symm
    · exact Or.inl (congrArg Prod.snd h).symm

theorem allCards_finish {gs1 : GameState} {c : Card} {b : Bool} {gs' : GameState}
    (h : gs1.play_card_finish c = (b, gs')) : allCards gs' = allCards gs1 := by
  rcases finish_cases h with h1 | h1
  · rw [h1]
  · rw [h1, allCards_burn]


theorem move_conserve {gs : GameState} {p p' : PlayerState} {c : Card} {deck' : List Card}
    (h : gs.play_card_move p c = (Option.some p', deck')) :
    (gs.table_cards.deck : Multiset Card) + pcards p = (deck' : Multiset Card) + pcards p' + {c} := by
  unfold GameState.play_card_move at h
  split_ifs at h with h1 h2 h3
  · cases hd : pyPop gs.table_cards.deck with
    | some pair =>
      rcases pair with ⟨top, d'⟩
      rw [hd] at h
      simp only [Prod.mk.injEq, Option.some.injEq] at h
      rcases h with ⟨hp', hd'⟩
      subst hp'
      subst hd'
      simp only [pcards]
      rw [coe_pyPop hd]
      rw [← Multiset.coe_add, Multiset.coe_singleton]
      rw [← erase_add_single h1]
      abel
    | none =>
      rw [hd] at h
      simp only [Prod.mk.injEq, Option.some.injEq] at h
      rcases h with ⟨hp', hd'⟩
      subst hp'
      subst hd'
      simp only [pcards]
      rw [← erase_add_single h1]
      abel
  · simp only [Prod.mk.injEq, Option.some.injEq] at h
    rcases h with ⟨hp', hd'⟩
    subst hp'
    subst hd'
    simp only [pcards]
    rw [← erase_add_single h2]
    abel
  · simp only [Prod.mk.injEq, Option.some.injEq] at h
    rcases h with ⟨hp', hd'⟩
    subst hp'
    subst hd'
    simp only [pcards]
    rw [← erase_add_single h3]
    abel
  · simp at h

theorem after_move_allCards {gs : GameState} {p p' : PlayerState} {c : Card} {deck' : List Card}
    (hp : gs.player_states[gs.turn_index]? = Option.some p)
    (hmv : gs.play_card_move p c = (Option.some p', deck')) :
    allCards (gs.after_move p' deck' c) = allCards gs := by
  have h2 := sum_map_set pcards gs.player_states gs.turn_index p p' hp
  have h3 := move_conserve hmv
  unfold allCards GameState.after_move
  dsimp only
  rw [← Multiset.coe_add, Multiset.coe_singleton]
  ext a
  have h2c := congrArg (Multiset.count a) h2
  have h3c := congrArg (Multiset.count a) h3
  simp only [Multiset.count_add] at h2c h3c ⊢
  omega

theorem play_card_ok_allCards {gs : GameState} {c : Card} {b : Bool} {gs' : GameState}
    (h : gs.play_card c = Except.ok (b, gs')) : allCards gs' = allCards gs := by
  unfold GameState.play_card at h
  split at h
  · exact absurd h (by simp)
  · exact absurd h (by simp)
  · split at h
    · exact absurd h (by simp)
    · rename_i p hp
      split at h
      · exact absurd h (by simp)
      · rename_i p' deck' hmv
        have hfin := Except.ok.inj h
        rw [allCards_finish hfin]
        exact after_move_allCards hp hmv

theorem append_ok_eq {gs : GameState} {a : GAction} {gs' : GameState}
    (h : gs.append_player_actions a = Except.ok gs') :
    ∃ rnds, gs' = { gs with rounds := rnds } := by
  unfold GameState.append_player_actions at h
  split at h
  · exact absurd h (by simp)
  · split at h
    · exact absurd h (by simp)
    · exact ⟨_, (Except.ok.inj h).symm⟩

theorem allCards_rounds (gs : GameState) (rnds : List (List (List GAction))) :
    allCards { gs with rounds := rnds } = allCards gs := rfl

theorem run_action_allCards {gs : GameState} {a : GAction} {gs' : GameState}
    (h : gs.run_action a = Except.ok gs') : allCards gs' = allCards gs := by
  unfold GameState.run_action at h
  split at h
  · rw [Except.ok.inj h]
  · -- pickup
    split at h
    · exact absurd h (by simp)
    · rename_i p hp
      obtain ⟨rnds, hr⟩ := append_ok_eq h
      subst hr
      rw [allCards_rounds]
      have h2 := sum_map_set pcards gs.player_states gs.turn_index p
        { p with cards_hand := p.cards_hand ++ gs.table_cards.stack_play } hp
      unfold allCards
      dsimp only
      rw [Multiset.coe_nil]
      ext x
      have h2c := congrArg (Multiset.count x) h2
      simp only [Multiset.count_add, Multiset.count_zero, pcards] at h2c ⊢
      have hsplit : Multiset.count x ((p.cards_hand ++ gs.table_cards.stack_play : List Card) : Multiset Card)
          = Multiset.count x (p.cards_hand : Multiset Card) + Multiset.count x (gs.table_cards.stack_play : Multiset Card) := by
        rw [← Multiset.coe_add, Multiset.count_add]
      rw [hsplit] at h2c
      omega
  · -- play c
    rename_i c
    split at h
    · exact absurd h (by simp)
    · rename_i res gs1 hplay
      have h0 := play_card_ok_allCards hplay
      split at h
      · exact absurd h (by simp)
      · rename_i gs2 happ
        obtain ⟨rnds, hr⟩ := append_ok_eq happ
        split at h
        · split at h
          · exact absurd h (by simp)
          · split at h
            · obtain ⟨rnds2, hr2⟩ := append_ok_eq h
              subst hr2
              rw [allCards_rounds, hr, allCards_rounds, h0]
            · rw [← Except.ok.inj h, hr, allCards_rounds, h0]
        · rw [← Except.ok.inj h, hr, allCards_rounds, h0]
  · exact absurd h (by simp)

theorem run_actions_allCards {acts : List GAction} :
    ∀ {gs gs' : GameState}, gs.run_actions acts = Except.ok gs' → allCards gs' = allCards gs := by
  induction acts with
  | nil =>
    intro gs gs' h
    unfold GameState.run_actions at h
    rw [Except.ok.inj h]
  | cons a rest ih =>
    intro gs gs' h
    unfold GameState.run_actions at h
    split at h
    · exact absurd h (by simp)
    · rename_i gs1 hstep
      rw [ih h, run_action_allCards hstep]

theorem check_game_over_allCards (gs : GameState) : allCards gs.check_game_over = allCards gs := rfl

theorem winner_check_allCards (gs : GameState) : allCards gs.winner_check = allCards gs := by
  unfold GameState.winner_check
  split
  · split
    · exact check_game_over_allCards gs
    · rfl
  · rfl

theorem store_ok_eq {gs gs' : GameState} (h : gs.store_game_state = Except.ok gs') : gs' = gs := by
  unfold GameState.store_game_state at h
  split at h
  · exact (Except.ok.inj h).symm
  · exact absurd h (by simp)

theorem next_turn_allCards (gs : GameState) : allCards gs.next_turn = allCards gs := rfl

theorem complete_turn_allCards {gs : GameState} {acts : List GAction} {gs' : GameState}
    (h : gs.complete_turn acts = Except.ok gs') : allCards gs' = allCards gs := by
  unfold GameState.complete_turn at h
  split at h
  · exact absurd h (by simp)
  · split at h
    · exact absurd h (by simp)
    · rename_i gs1 hrun
      have h1 := run_actions_allCards hrun
      simp only [] at h
      split at h
      · split at h
        · exact absurd h (by simp)
        · rename_i gs3 hstore
          rw [Except.ok.inj h] at hstore
          rw [store_ok_eq hstore, winner_check_allCards, h1]
      · split at h
        · exact absurd h (by simp)
        · split at h
          · rw [← Except.ok.inj h, next_turn_allCards, winner_check_allCards, h1]
          · split at h
            · exact absurd h (by simp)
            · split at h
              · rw [← Except.ok.inj h, next_turn_allCards, winner_check_allCards, h1]
              · rw [← Except.ok.inj h, winner_check_allCards, h1]

theorem check_same_cards_allCards (gs : GameState) : allCards gs.check_same_cards = allCards gs := by
  unfold GameState.check_same_cards
  split
  · rfl
  · simp only []
    split <;> split <;> rfl

theorem create_round_allCards (gs : GameState) : allCards gs.create_round = allCards gs := rfl

theorem check_round_start_allCards {gs gs' : GameState} (h : gs.check_round_start = Except.ok gs') :
    allCards gs' = allCards gs := by
  unfold GameState.check_round_start at h
  split at h
  · split at h
    · exact absurd h (by simp)
    · rename_i gs1 hstore
      rw [← Except.ok.inj h, check_same_cards_allCards]
      rw [store_ok_eq hstore]
      rfl
  · rw [Except.ok.inj h]

theorem init_turn_allCards {gs : GameState} {mv : List GAction} {gs' : GameState}
    (h : gs.init_turn = Except.ok (mv, gs')) : allCards gs' = allCards gs := by
  unfold GameState.init_turn at h
  simp only [] at h
  split at h
  · exact absurd h (by simp)
  · rename_i gsA hchosen
    have hA : allCards gsA = allCards gs := by
      split at hchosen
      · split at hchosen
        · exact absurd hchosen (by simp)
        · rw [← Except.ok.inj hchosen]
          rfl
      · rw [Except.ok.inj hchosen]
    split at h
    · exact absurd h (by simp)
    · rename_i gsB hcrs
      have hB := check_round_start_allCards hcrs
      split at h
      · exact absurd h (by simp)
      · split at h
        · injection Except.ok.inj h with hmv hgs
          rw [← hgs, hB, hA]
        · split at h
          · exact absurd h (by simp)
          · injection Except.ok.inj h with hmv hgs
            rw [← hgs, hB, hA]
          · injection Except.ok.inj h with hmv hgs
            rw [← hgs, hB, hA]

theorem count_coe_append (x : Card) (l1 l2 : List Card) :
    Multiset.count x ((l1 ++ l2 : List Card) : Multiset Card)
      = Multiset.count x (l1 : Multiset Card) + Multiset.count x (l2 : Multiset Card) := by
  rw [← Multiset.coe_add, Multiset.count_add]

theorem deal_iter_ok {s t : List Card × PlayerState} (h : deal_iter s = Except.ok t) :
    (s.fst : Multiset Card) + pcards s.snd = (t.fst : Multiset Card) + pcards t.snd := by
  unfold deal_iter at h
  split at h
  · exact absurd h (by simp)
  · rename_i c1 d1 hd1
    split at h
    · exact absurd h (by simp)
    · rename_i c2 d2 hd2
      split at h
      · exact absurd h (by simp)
      · rename_i c3 d3 hd3
        rw [← Except.ok.inj h]
        ext x
        have h1 := congrArg (Multiset.count x) (coe_pyPop hd1)
        have h2 := congrArg (Multiset.count x) (coe_pyPop hd2)
        have h3 := congrArg (Multiset.count x) (coe_pyPop hd3)
        simp only [Multiset.count_add, Multiset.coe_singleton] at h1 h2 h3
        simp only [pcards, count_coe_append, Multiset.count_add, Multiset.coe_singleton]
        omega

theorem deal_player_ok {s t : List Card × PlayerState} (h : deal_player s = Except.ok t) :
    (s.fst : Multiset Card) + pcards s.snd = (t.fst : Multiset Card) + pcards t.snd := by
  unfold deal_player at h
  split at h
  · exact absurd h (by simp)
  · rename_i s1 h1
    split at h
    · exact absurd h (by simp)
    · rename_i s2 h2
      rw [deal_iter_ok h1, deal_iter_ok h2, deal_iter_ok h]

theorem deal_list_ok {ps : List PlayerState} :
    ∀ {deck deck' : List Card} {ps' : List PlayerState},
      deal_list deck ps = Except.ok (deck', ps') →
      (deck : Multiset Card) + (ps.map pcards).sum = (deck' : Multiset Card) + (ps'.map pcards).sum := by
  induction ps with
  | nil =>
    intro deck deck' ps' h
    unfold deal_list at h
    injection Except.ok.inj h with ha hb
    subst ha
    subst hb
    rfl
  | cons p rest ih =>
    intro deck deck' ps' h
    unfold deal_list at h
    split at h
    · exact absurd h (by simp)
    · rename_i d1 p1 hdp
      split at h
      · exact absurd h (by simp)
      · rename_i d2 rest2 hdl
        injection Except.ok.inj h with ha hb
        subst ha
        subst hb
        have hp := deal_player_ok hdp
        have hr := ih hdl
        ext x
        have hpc := congrArg (Multiset.count x) hp
        have hrc := congrArg (Multiset.count x) hr
        simp only [Multiset.count_add] at hpc hrc
        simp only [List.map_cons, List.sum_cons, Multiset.count_add]
        omega

theorem deal_cards_ok {gs gs' : GameState} (h : gs.deal_cards = Except.ok gs') :
    allCards gs' = allCards gs := by
  unfold GameState.deal_cards at h
  split at h
  · exact absurd h (by simp)
  · rename_i d' ps' hdl
    rw [← Except.ok.inj h]
    have hl := deal_list_ok hdl
    unfold allCards
    dsimp only
    ext x
    have hc := congrArg (Multiset.count x) hl
    simp only [Multiset.count_add] at hc ⊢
    omega


theorem initial_players_sum (names : List String) :
    (((names.map (fun n => ({ name := n, cards_hand := [], cards_face_up := [], cards_face_down := [] } : PlayerState))).map pcards)).sum = 0 := by
  induction names with
  | nil => rfl
  | cons n ns ih =>
    simp only [List.map_cons, List.sum_cons, ih]
    simp [pcards]

theorem start_game_initial {names : List String} {magic : List (Nat × MagicCard)}
    {shuffled : List Card} {gs' : GameState}
    (h : (GameState.initial names magic).start_game shuffled = Except.ok gs') :
    allCards gs' = (shuffled : Multiset Card) := by
  unfold GameState.start_game at h
  simp only [] at h
  split at h
  · exact absurd h (by simp)
  · rename_i gs1 hdeal
    split at h
    · exact absurd h (by simp)
    · rename_i gs3 hstore
      have h4 : allCards gs' = allCards gs3 := by
        rw [← Except.ok.inj h, create_round_allCards]
        exact rfl
      rw [h4, store_ok_eq hstore, create_round_allCards, deal_cards_ok hdeal]
      unfold allCards GameState.initial
      dsimp only
      rw [initial_players_sum names]
      rw [Multiset.coe_nil]
      simp

theorem full_deck_count {c : Card} (h2 : 2 ≤ c.rank) (h14 : c.rank ≤ 14) :
    (full_deck : Multiset Card).count c = 1 := by
  obtain ⟨s, r⟩ := c
  simp only [] at h2 h14
  rw [Multiset.coe_count]
  interval_cases r <;> cases s <;> decide

/-- C1: card conservation — every state reachable from `start_game`
through accepted `init_turn` / `complete_turn` calls carries exactly the
52-card deck, split across the deck, the two table stacks and every
player's three piles, with each card of the full deck appearing exactly
once. -/
theorem C1_card_conservation (gs : GameState) (h : Reachable gs) :
    allCards gs = (full_deck : Multiset Card) ∧
      ∀ c : Card, 2 ≤ c.rank → c.rank ≤ 14 → (allCards gs).count c = 1 := by
  induction h with
  | start names magic shuffled gs' hperm hok =>
    have he : allCards gs' = (full_deck : Multiset Card) := by
      rw [start_game_initial hok]
      exact Multiset.coe_eq_coe.mpr hperm
    exact ⟨he, fun c hc1 hc2 => by rw [he]; exact full_deck_count hc1 hc2⟩
  | init_turn gs mv gs' hre hok ih =>
    have he : allCards gs' = allCards gs := init_turn_allCards hok
    exact ⟨by rw [he, ih.1], fun c hc1 hc2 => by rw [he]; exact ih.2 c hc1 hc2⟩
  | complete_turn gs acts gs' hre hok ih =>
    have he : allCards gs' = allCards gs := complete_turn_allCards hok
    exact ⟨by rw [he, ih.1], fun c hc1 hc2 => by rw [he]; exact ih.2 c hc1 hc2⟩

/-- Witness: the two-player game started on the identity shuffle satisfies
card conservation. -/
theorem C1_witness :
    allCards gsC1w = (full_deck : Multiset Card) ∧
      ∀ c : Card, 2 ≤ c.rank → c.rank ≤ 14 → (allCards gsC1w).count c = 1 :=
  C1_card_conservation gsC1w
    (Reachable.start ["A", "B"] magic_cards full_deck gsC1w (List.Perm.refl full_deck) (by decide))

theorem append_ok_shape {gs : GameState} {a : GAction} {gs' : GameState}
    (h : gs.append_player_actions a = Except.ok gs') :
    gs'.turn_index = gs.turn_index ∧ gs'.round_index = gs.round_index ∧
      gs'.player_states = gs.player_states := by
  obtain ⟨rnds, hr⟩ := append_ok_eq h
  subst hr
  exact ⟨rfl, rfl, rfl⟩

theorem play_card_ok_shape {gs : GameState} {c : Card} {b : Bool} {gs' : GameState}
    (h : gs.play_card c = Except.ok (b, gs')) :
    gs'.turn_index = gs.turn_index ∧ gs'.round_index = gs.round_index ∧
      gs'.player_states.length = gs.player_states.length := by
  unfold GameState.play_card at h
  split at h
  · exact absurd h (by simp)
  · exact absurd h (by simp)
  · split at h
    · exact absurd h (by simp)
    · rename_i p hp
      split at h
      · exact absurd h (by simp)
      · rename_i p' deck' hmv
        have hfin := Except.ok.inj h
        rcases finish_cases hfin with h1 | h1 <;> subst h1
        · exact ⟨rfl, rfl, by simp [GameState.after_move]⟩
        · exact ⟨rfl, rfl, by simp [GameState.after_move, GameState.burn_play_stack]⟩

theorem run_action_ok_shape {gs : GameState} {a : GAction} {gs' : GameState}
    (h : gs.run_action a = Except.ok gs') :
    gs'.turn_index = gs.turn_index ∧ gs'.round_index = gs.round_index ∧
      gs'.player_states.length = gs.player_states.length := by
  unfold GameState.run_action at h
  split at h
  · rw [Except.ok.inj h]
    exact ⟨rfl, rfl, rfl⟩
  · split at h
    · exact absurd h (by simp)
    · rename_i p hp
      obtain ⟨h1, h2, h3⟩ := append_ok_shape h
      refine ⟨h1, h2, ?_⟩
      rw [h3]
      simp
  · split at h
    · exact absurd h (by simp)
    · rename_i res gs1 hplay
      obtain ⟨p1, p2, p3⟩ := play_card_ok_shape hplay
      split at h
      · exact absurd h (by simp)
      · rename_i gs2 happ
        obtain ⟨q1, q2, q3⟩ := append_ok_shape happ
        split at h
        · split at h
          · exact absurd h (by simp)
          · split at h
            · obtain ⟨r1, r2, r3⟩ := append_ok_shape h
              exact ⟨by rw [r1, q1, p1], by rw [r2, q2, p2], by rw [r3, q3, p3]⟩
            · rw [← Except.ok.inj h]
              exact ⟨by rw [q1, p1], by rw [q2, p2], by rw [q3, p3]⟩
        · rw [← Except.ok.inj h]
          exact ⟨by rw [q1, p1], by rw [q2, p2], by rw [q3, p3]⟩
  · exact absurd h (by simp)

theorem run_actions_shape {acts : List GAction} :
    ∀ {gs gs' : GameState}, gs.run_actions acts = Except.ok gs' →
      gs'.turn_index = gs.turn_index ∧ gs'.round_index = gs.round_index ∧
        gs'.player_states.length = gs.player_states.length := by
  induction acts with
  | nil =>
    intro gs gs' h
    unfold GameState.run_actions at h
    rw [Except.ok.inj h]
    exact ⟨rfl, rfl, rfl⟩
  | cons a rest ih =>
    intro gs gs' h
    unfold GameState.run_actions at h
    split at h
    · exact absurd h (by simp)
    · rename_i gs1 hstep
      obtain ⟨s1, s2, s3⟩ := run_action_ok_shape hstep
      obtain ⟨t1, t2, t3⟩ := ih h
      exact ⟨by rw [t1, s1], by rw [t2, s2], by rw [t3, s3]⟩

theorem winner_check_fields (g : GameState) :
    (g.winner_check).turn_index = g.turn_index ∧ (g.winner_check).round_index = g.round_index ∧
      (g.winner_check).player_states = g.player_states ∧ (g.winner_check).rounds = g.rounds := by
  unfold GameState.winner_check GameState.check_game_over
  split
  · split
    · exact ⟨rfl, rfl, rfl, rfl⟩
    · exact ⟨rfl, rfl, rfl, rfl⟩
  · exact ⟨rfl, rfl, rfl, rfl⟩

theorem gpla_recorded {g : GameState} {la : Option GAction}
    (h : g.get_player_last_action = Except.ok la) : recorded_last g g.turn_index = la := by
  unfold GameState.get_player_last_action at h
  unfold recorded_last
  split at h
  · exact absurd h (by simp)
  · rename_i rnd hrnd
    split at h
    · exact absurd h (by simp)
    · rename_i lst hlst
      exact Except.ok.inj h

/-- C2 counterexample: in `gsC2` (player 1 already finished, at least two
players unfinished) player 0 plays h05 — a non-empty accepted action
sequence whose last recorded action is not the burn marker — and the
resulting `turn_index` (1) designates a player whose `is_winner()` is
true, so `complete_turn` does not skip finished players. -/
theorem C2_counterexample :
    gsC2.is_game_over = false ∧
    gsC2.complete_turn [GAction.play { suit := Suit.h, rank := 5 }] = Except.ok gsC2' ∧
    gsC2'.is_game_over = false ∧
    recorded_last gsC2' gsC2.turn_index = Option.some (GAction.play { suit := Suit.h, rank := 5 }) ∧
    2 ≤ unfinished_count gsC2' ∧
    (gsC2'.player_states[gsC2'.turn_index]?).map PlayerState.is_winner = Option.some true := by
  exact ⟨rfl, by decide, by decide, by decide, by decide, by decide⟩

/-- C2 amended: when `complete_turn` returns without ending the game on a
action sequence whose first action is `None` or whose most recent
recorded action is not the burn marker, the turn passes to the
cyclically next player index `(turn_index + 1) % len(player_states)` —
finished or not; finished players are only skipped across subsequent
`init_turn` / `complete_turn([None])` iterations. -/
theorem C2_turn_advance {gs : GameState} {acts : List GAction} {gs' : GameState}
    (hok : gs.complete_turn acts = Except.ok gs')
    (hover : gs'.is_game_over = false)
    (hadv : acts.head? = Option.some GAction.none ∨
      recorded_last gs' gs.turn_index ≠ Option.some GAction.burn) :
    gs'.turn_index = (gs.turn_index + 1) % gs.player_states.length := by
  unfold GameState.complete_turn at hok
  split at hok
  · simp at hok
  · split at hok
    · simp at hok
    · rename_i gs1 hrun
      simp only [] at hok
      obtain ⟨ht1, hr1, hl1⟩ := run_actions_shape hrun
      obtain ⟨w1, w2, w3, w4⟩ := winner_check_fields gs1
      split at hok
      · rename_i hgo
        split at hok
        · simp at hok
        · rename_i gs3 hstore
          exfalso
          rw [store_ok_eq hstore] at hok
          rw [← Except.ok.inj hok] at hover
          rw [hover] at hgo
          exact absurd hgo (by simp)
      · split at hok
        · simp at hok
        · rename_i a0 hhead
          split at hok
          · rw [← Except.ok.inj hok]
            show (gs1.winner_check.turn_index + 1) % gs1.winner_check.player_states.length = _
            rw [w1, w3, ht1, hl1]
          · rename_i ha0
            split at hok
            · simp at hok
            · rename_i la hla
              split at hok
              · rw [← Except.ok.inj hok]
                show (gs1.winner_check.turn_index + 1) % gs1.winner_check.player_states.length = _
                rw [w1, w3, ht1, hl1]
              · rename_i hburn
                exfalso
                have hla2 : la = Option.some GAction.burn := by
                  by_contra hx
                  exact hburn hx
                rcases hadv with hL | hR
                · rw [hhead] at hL
                  exact ha0 (Option.some.inj hL)
                · apply hR
                  rw [← Except.ok.inj hok]
                  have := gpla_recorded hla
                  rw [w1, ht1] at this
                  rw [this, hla2]

theorem magicLookup_shipped (r : Nat) :
    magicLookup magic_cards r =
      if r = 2 then Option.some { magic_ability := MagicAbilities.RESET, playable_on := List.range' 2 13, is_effect_now := false }
      else if r = 3 then Option.some { magic_ability := MagicAbilities.INVISIBLE, playable_on := List.range' 2 13, is_effect_now := false }
      else if r = 7 then Option.some { magic_ability := MagicAbilities.LOWER_THAN, playable_on := List.range' 2 6, is_effect_now := false }
      else if r = 10 then Option.some { magic_ability := MagicAbilities.BURN, playable_on := List.range' 2 13, is_effect_now := true }
      else Option.none := by
  by_cases h2 : r = 2
  · subst h2; decide
  · by_cases h3 : r = 3
    · subst h3; decide
    · by_cases h7 : r = 7
      · subst h7; decide
      · by_cases h10 : r = 10
        · subst h10; decide
        · rw [if_neg h2, if_neg h3, if_neg h7, if_neg h10]
          unfold magicLookup magic_cards
          have e2 : (2 == r) = false := beq_eq_false_iff_ne.mpr (Ne.symm h2)
          have e3 : (3 == r) = false := beq_eq_false_iff_ne.mpr (Ne.symm h3)
          have e7 : (7 == r) = false := beq_eq_false_iff_ne.mpr (Ne.symm h7)
          have e10 : (10 == r) = false := beq_eq_false_iff_ne.mpr (Ne.symm h10)
          simp [List.find?, e2, e3, e7, e10]

/-- C3 counterexample: `gsC3` has effective top card of rank 7 (the
`LOWER_THAN` / ConstrainLower ability) and is not in the opening-lead
round, yet the rank-10 candidate — a rank in (7,14] — is accepted,
because a magic candidate is judged by its own playable-onto set (which
contains 7 for the Burn card), not by the ConstrainLower comparison. -/
theorem C3_counterexample :
    gsC3.magic = magic_cards ∧
    gsC3.find_effective_top_card = Option.some { suit := Suit.h, rank := 7 } ∧
    ¬(gsC3.round_index = 1 ∧ gsC3.start_index = gsC3.turn_index) ∧
    (7 < 10 ∧ 10 ≤ 14) ∧
    gsC3.can_play_card { suit := Suit.s, rank := 10 } = Except.ok true := by
  exact ⟨rfl, by decide, by decide, by decide, by decide⟩

/-- C3 amended: with the shipped catalog, an effective top card of rank 7
and the opening-lead rule not in force, `can_play_card` accepts exactly
the candidate ranks `[2,7] ∪ {10}`: every non-ability rank in (7,14] is
rejected, but the Burn rank 10 is accepted since its playable-onto set
contains 7. -/
theorem C3_constrain_lower {gs : GameState} {t : Card} (hm : gs.magic = magic_cards)
    (hlead : ¬(gs.round_index = 1 ∧ gs.start_index = gs.turn_index))
    (htop : gs.find_effective_top_card = Option.some t) (ht7 : t.rank = 7) :
    ∀ c : Card, 2 ≤ c.rank → c.rank ≤ 14 →
      (gs.can_play_card c = Except.ok true ↔ (c.rank ≤ 7 ∨ c.rank = 10)) := by
  intro c h2 h14
  obtain ⟨s, r⟩ := c
  simp only [Card.rank] at h2 h14 ht7 ⊢
  simp only [GameState.can_play_card, get_card_rank, if_neg hlead, htop, hm, ht7, Option.map_some']
  cases s <;> interval_cases r <;> simp [magicLookup_shipped, List.range']

/-- C3 witness: the amended rule evaluated in `gsC3` at the non-ability
candidate rank 9, which is rejected. -/
theorem C3_witness :
    gsC3.can_play_card { suit := Suit.s, rank := 9 } = Except.ok true ↔
      (({ suit := Suit.s, rank := 9 } : Card).rank ≤ 7 ∨ ({ suit := Suit.s, rank := 9 } : Card).rank = 10) :=
  C3_constrain_lower rfl (by decide)
    (show gsC3.find_effective_top_card = Option.some { suit := Suit.h, rank := 7 } by decide) rfl
    { suit := Suit.s, rank := 9 } (by decide) (by decide)

/-- C4 counterexample: in the opening-lead position `gsC4` (hand d05,
h09, c12; lowest non-ability rank 5), the candidate h05 is accepted by
`can_play_card` even though it is not a card of the acting player's hand
at all — the opening-lead branch compares ranks, not card identity, so
acceptance is not equivalent to being exactly the player's lowest card. -/
theorem C4_counterexample :
    gsC4.round_index = 1 ∧ gsC4.start_index = gsC4.turn_index ∧
    gsC4.can_play_card { suit := Suit.h, rank := 5 } = Except.ok true ∧
    ({ suit := Suit.h, rank := 5 } : Card) ∉ gsC4.player_states.flatMap PlayerState.cards_hand := by
  exact ⟨rfl, rfl, by decide, by decide⟩

/-- C4 amended: in round 1 while the starting player acts,
`can_play_card` accepts a candidate iff the candidate's rank equals the
acting player's lowest non-ability hand rank (`get_lowest_card`, 15 when
the hand holds only ability ranks, in which case no card is accepted). -/
theorem C4_opening_lead {gs : GameState} {p : PlayerState}
    (h1 : gs.round_index = 1) (h2 : gs.start_index = gs.turn_index)
    (hp : gs.player_states[gs.turn_index]? = Option.some p) (c : Card) :
    gs.can_play_card c = Except.ok (c.rank == gs.get_lowest_card p) := by
  unfold GameState.can_play_card
  rw [if_pos ⟨h1, h2⟩, hp]
  rfl

/-- C4 witness: the amended rule evaluated in `gsC4` on the in-hand card
d05, which has the lowest non-ability rank. -/
theorem C4_witness :
    gsC4.can_play_card { suit := Suit.d, rank := 5 } =
      Except.ok ((5 : Nat) == gsC4.get_lowest_card { name := "P0", cards_hand := [{ suit := Suit.d, rank := 5 }, { suit := Suit.h, rank := 9 }, { suit := Suit.c, rank := 12 }], cards_face_up := [], cards_face_down := [] }) :=
  C4_opening_lead rfl rfl (by decide) { suit := Suit.d, rank := 5 }

theorem isInvisible_shipped (r : Nat) : isInvisibleRank magic_cards r = (r == 3) := by
  unfold isInvisibleRank
  rw [magicLookup_shipped r]
  by_cases h2 : r = 2
  · subst h2; decide
  · by_cases h3 : r = 3
    · subst h3; decide
    · by_cases h7 : r = 7
      · subst h7; decide
      · by_cases h10 : r = 10
        · subst h10; decide
        · rw [if_neg h2, if_neg h3, if_neg h7, if_neg h10]
          simp [beq_eq_false_iff_ne.mpr h3]

/-- C5: with the shipped catalog, `find_effective_top_card` scans the
play stack from the most recent card down, skipping exactly the rank-3
Invisible cards; it is `None` iff the stack is empty or all-Invisible;
a stack ending `[..., 9, 3]` has effective top 9; and outside the
opening-lead branch `can_play_card` depends on the play stack only
through the effective top card (legality is computed against it). -/
theorem C5_effective_top (gs : GameState) (hm : gs.magic = magic_cards) :
    (gs.find_effective_top_card
        = gs.table_cards.stack_play.reverse.find? (fun c => !(c.rank == 3))) ∧
    (gs.find_effective_top_card = Option.none ↔ ∀ c ∈ gs.table_cards.stack_play, c.rank = 3) ∧
    (∀ (pre : List Card) (c9 c3m : Card), c9.rank = 9 → c3m.rank = 3 →
        gs.table_cards.stack_play = pre ++ [c9, c3m] →
        gs.find_effective_top_card = Option.some c9) ∧
    (∀ (gs2 : GameState) (c : Card), gs2.magic = gs.magic →
      ¬(gs.round_index = 1 ∧ gs.start_index = gs.turn_index) →
      ¬(gs2.round_index = 1 ∧ gs2.start_index = gs2.turn_index) →
      gs2.find_effective_top_card = gs.find_effective_top_card →
      gs2.can_play_card c = gs.can_play_card c) := by
  have hpred : (fun c : Card => !(isInvisibleRank gs.magic c.rank)) = (fun c : Card => !(c.rank == 3)) := by
    funext c
    rw [hm, isInvisible_shipped]
  have h1 : gs.find_effective_top_card = gs.table_cards.stack_play.reverse.find? (fun c => !(c.rank == 3)) := by
    unfold GameState.find_effective_top_card
    rw [hpred]
  refine ⟨h1, ?_, ?_, ?_⟩
  · rw [h1, List.find?_eq_none]
    constructor
    · intro h c hc
      have h2 := h c (List.mem_reverse.mpr hc)
      simpa using h2
    · intro h c hc
      have h2 := h c (List.mem_reverse.mp hc)
      simp [h2]
  · intro pre c9 c3m h9 h3 hstack
    rw [h1, hstack]
    simp [List.reverse_append, List.find?_cons, h3, h9]
  · intro gs2 c hmagic hlead hlead2 hfe
    unfold GameState.can_play_card
    rw [if_neg hlead2, if_neg hlead, hfe, hmagic]

/-- C5 witness: in `gsC5w`, whose play stack is `[9♥, 3♥]`, the effective
top card is the 9 of hearts. -/
theorem C5_witness : gsC5w.find_effective_top_card = Option.some { suit := Suit.h, rank := 9 } :=
  (C5_effective_top gsC5w rfl).2.2.1 [] { suit := Suit.h, rank := 9 } { suit := Suit.h, rank := 3 }
    rfl rfl (by decide)

theorem natMinOr (a b : Nat) : min a b = a ∨ min a b = b := by omega

theorem nat_min_eq_some_iff {a : Nat} {xs : List Nat} :
    xs.min? = Option.some a ↔ a ∈ xs ∧ ∀ b ∈ xs, a ≤ b :=
  List.min?_eq_some_iff (fun a => Nat.le_refl a) natMinOr (fun a b c => by omega)

theorem pyIndex_spec {l : List Nat} {x : Nat} (h : x ∈ l) :
    pyIndex l x < l.length ∧ l[pyIndex l x]? = Option.some x ∧
      ∀ i, i < pyIndex l x → l[i]? ≠ Option.some x := by
  induction l with
  | nil => simp at h
  | cons y ys ih =>
    by_cases hy : y = x
    · subst hy
      unfold pyIndex
      rw [List.indexOf_cons_self]
      exact ⟨by simp, by simp, fun i hi => absurd hi (by omega)⟩
    · have hx : x ∈ ys := by
        rcases List.mem_cons.mp h with h1 | h1
        · exact absurd h1.symm hy
        · exact h1
      obtain ⟨ih1, ih2, ih3⟩ := ih hx
      unfold pyIndex at *
      rw [List.indexOf_cons_ne ys hy]
      refine ⟨by simpa using Nat.succ_lt_succ ih1, by simpa using ih2, ?_⟩
      intro i hi
      cases i with
      | zero => simp [hy]
      | succ n =>
        have := ih3 n (by omega)
        simpa using this

theorem get_lowest_le {gs : GameState} {p : PlayerState} {c : Card}
    (hc : c ∈ p.cards_hand) (hn : (magicLookup gs.magic c.rank).isNone) :
    gs.get_lowest_card p ≤ c.rank := by
  unfold GameState.get_lowest_card pyMin
  have hmem : c.rank ∈ (p.cards_hand.filter (fun c => (magicLookup gs.magic c.rank).isNone)).map Card.rank :=
    List.mem_map_of_mem Card.rank (List.mem_filter.mpr ⟨hc, hn⟩)
  cases hmin : ((p.cards_hand.filter (fun c => (magicLookup gs.magic c.rank).isNone)).map Card.rank).min? with
  | none =>
    rw [List.min?_eq_none_iff] at hmin
    rw [hmin] at hmem
    simp at hmem
  | some m => exact (nat_min_eq_some_iff.mp hmin).2 _ hmem

theorem get_lowest_lt15 {gs : GameState} {p : PlayerState} (h : gs.get_lowest_card p < 15) :
    ∃ c, c ∈ p.cards_hand ∧ (magicLookup gs.magic c.rank).isNone ∧ c.rank = gs.get_lowest_card p := by
  cases hmin : ((p.cards_hand.filter (fun c => (magicLookup gs.magic c.rank).isNone)).map Card.rank).min? with
  | none =>
    exfalso
    have h15 : gs.get_lowest_card p = 15 := by
      unfold GameState.get_lowest_card pyMin
      rw [hmin]
    omega
  | some m =>
    have hg : gs.get_lowest_card p = m := by
      unfold GameState.get_lowest_card pyMin
      rw [hmin]
    have hm_mem := (nat_min_eq_some_iff.mp hmin).1
    obtain ⟨c, hcf, hcr⟩ := List.mem_map.mp hm_mem
    obtain ⟨hch, hcn⟩ := List.mem_filter.mp hcf
    exact ⟨c, hch, by simpa using hcn, by rw [hg, hcr]⟩

/-- C8: `choose_first_player` returns the index of the player holding
the strictly lowest non-ability-rank hand card, earliest player first on
ties; players whose hands hold only ability ranks (lowest-card value 15)
cannot win the tie.  Stated for dealt games: every hand rank is ≤ 14 and
some player holds a non-ability card. -/
theorem C8_choose_first_player {gs : GameState}
    (hvalid : ∀ p ∈ gs.player_states, ∀ c ∈ p.cards_hand, c.rank ≤ 14)
    (hsome : ∃ p, p ∈ gs.player_states ∧ ∃ c, c ∈ p.cards_hand ∧ (magicLookup gs.magic c.rank).isNone) :
    ∃ j p, gs.choose_first_player = Except.ok j ∧ gs.player_states[j]? = Option.some p ∧
      (∀ q ∈ gs.player_states, gs.get_lowest_card p ≤ gs.get_lowest_card q) ∧
      (∀ i q, i < j → gs.player_states[i]? = Option.some q →
        gs.get_lowest_card p < gs.get_lowest_card q) ∧
      ∃ c, c ∈ p.cards_hand ∧ (magicLookup gs.magic c.rank).isNone ∧ c.rank = gs.get_lowest_card p := by
  obtain ⟨p0, hp0, c0, hc0, hn0⟩ := hsome
  have hmem0 : gs.get_lowest_card p0 ∈ gs.player_states.map (fun q => gs.get_lowest_card q) :=
    List.mem_map_of_mem _ hp0
  cases hmin : (gs.player_states.map (fun q => gs.get_lowest_card q)).min? with
  | none =>
    rw [List.min?_eq_none_iff] at hmin
    rw [hmin] at hmem0
    simp at hmem0
  | some m =>
    obtain ⟨hm_mem, hm_le⟩ := nat_min_eq_some_iff.mp hmin
    have hle0 : m ≤ gs.get_lowest_card p0 := hm_le _ hmem0
    have h15 : m < 15 := by
      have h1 : gs.get_lowest_card p0 ≤ c0.rank := get_lowest_le hc0 hn0
      have h2 : c0.rank ≤ 14 := hvalid p0 hp0 c0 hc0
      omega
    have hres : gs.choose_first_player =
        Except.ok (pyIndex (gs.player_states.map (fun q => gs.get_lowest_card q)) m) := by
      unfold GameState.choose_first_player
      simp only [hmin]
      rw [if_neg (by omega)]
    obtain ⟨hjlen, hjval, hjne⟩ := pyIndex_spec hm_mem
    have hjlen2 : pyIndex (gs.player_states.map (fun q => gs.get_lowest_card q)) m
        < gs.player_states.length := by simpa using hjlen
    obtain ⟨p, hpj⟩ : ∃ p, gs.player_states[pyIndex (gs.player_states.map (fun q => gs.get_lowest_card q)) m]?
        = Option.some p := by
      rw [List.getElem?_eq_getElem hjlen2]
      exact ⟨_, rfl⟩
    have hlowp : gs.get_lowest_card p = m := by
      rw [List.getElem?_map, hpj] at hjval
      simpa using hjval
    refine ⟨_, p, hres, hpj, ?_, ?_, ?_⟩
    · intro q hq
      rw [hlowp]
      exact hm_le _ (List.mem_map_of_mem _ hq)
    · intro i q hi hqi
      have hne := hjne i hi
      rw [List.getElem?_map, hqi] at hne
      have hne2 : gs.get_lowest_card q ≠ m := by
        intro he
        apply hne
        simp [he]
      have hge : m ≤ gs.get_lowest_card q := hm_le _ (List.mem_map_of_mem _ (by
        exact List.getElem?_mem hqi))
      rw [hlowp]
      omega
    · exact get_lowest_lt15 (by omega)

/-- C8 witness: in `gsC8w` (player 0 holds only the ability rank 10;
player 1 holds the 4 of hearts) the properties hold — the chosen index
is in range, attains the minimum lowest-card value, and denotes a player
actually holding a non-ability card. -/
theorem C8_witness :
    ∃ j p, gsC8w.choose_first_player = Except.ok j ∧ gsC8w.player_states[j]? = Option.some p ∧
      (∀ q ∈ gsC8w.player_states, gsC8w.get_lowest_card p ≤ gsC8w.get_lowest_card q) ∧
      (∀ i q, i < j → gsC8w.player_states[i]? = Option.some q →
        gsC8w.get_lowest_card p < gsC8w.get_lowest_card q) ∧
      ∃ c, c ∈ p.cards_hand ∧ (magicLookup gsC8w.magic c.rank).isNone ∧
        c.rank = gsC8w.get_lowest_card p :=
  C8_choose_first_player (by decide) (by decide)

/-- C10: calling `complete_turn` with an empty action sequence never
acts as a no-op — the only outcome without an exception is a game-over
early return (so without `is_game_over` ending up set an `IndexError` is
raised, the success path being unreachable), every raised exception is
an `IndexError`, and in every outcome `turn_index` is unchanged. -/
theorem C10_empty_actions (gs : GameState) :
    (∀ gs2, gs.complete_turn [] = Except.ok gs2 →
      gs2.is_game_over = true ∧ gs2.turn_index = gs.turn_index) ∧
    (∀ e gs2, gs.complete_turn [] = Except.error (e, gs2) →
      e = PyErr.indexError ∧ gs2.turn_index = gs.turn_index) := by
  have hw := winner_check_fields gs
  constructor
  · intro gs2 h
    unfold GameState.complete_turn at h
    split at h
    · simp at h
    · simp only [GameState.run_actions] at h
      split at h
      · rename_i hgo
        split at h
        · simp at h
        · rename_i gs3 hstore
          rw [store_ok_eq hstore] at h
          rw [← Except.ok.inj h]
          exact ⟨hgo, hw.1⟩
      · split at h
        · simp at h
        · rename_i a0 hhead
          simp at hhead
  · intro e gs2 h
    unfold GameState.complete_turn at h
    split at h
    · obtain ⟨he, hgs⟩ := Prod.mk.injEq .. ▸ Except.error.inj h
      exact ⟨he.symm, by rw [← hgs]⟩
    · simp only [GameState.run_actions] at h
      split at h
      · split at h
        · rename_i e1 hstore
          have he1 : e1 = (e, gs2) := Except.error.inj h
          subst he1
          unfold GameState.store_game_state at hstore
          split at hstore
          · simp at hstore
          · obtain ⟨he, hgs⟩ := Prod.mk.injEq .. ▸ Except.error.inj hstore
            exact ⟨he.symm, by rw [← hgs, hw.1]⟩
        · simp at h
      · split at h
        · obtain ⟨he, hgs⟩ := Prod.mk.injEq .. ▸ Except.error.inj h
          exact ⟨he.symm, by rw [← hgs, hw.1]⟩
        · rename_i a0 hhead
          simp at hhead

/-- C2 witness: the amended advancement rule evaluated on `gsC2`:
after player 0's play the turn index is `(0 + 1) % 3`. -/
theorem C2_witness : gsC2'.turn_index = (gsC2.turn_index + 1) % gsC2.player_states.length :=
  C2_turn_advance
    (show gsC2.complete_turn [GAction.play { suit := Suit.h, rank := 5 }] = Except.ok gsC2' by decide)
    (by decide) (Or.inr (by decide))

/-- C10 witness: on `gsC10w` the empty-action call raises an
`IndexError` and leaves `turn_index` unchanged. -/
theorem C10_witness : PyErr.indexError = PyErr.indexError ∧ gsC10w.turn_index = gsC10w.turn_index :=
  (C10_empty_actions gsC10w).2 PyErr.indexError gsC10w (by decide)

theorem move_bookkeeping_probs (m : ProbabilisticModel) (pc : PCard) (A B : Loc) (i : Nat) (u : ℚ) :
    (m.move_bookkeeping pc A B i u).card_probabilities = m.card_probabilities := by
  unfold ProbabilisticModel.move_bookkeeping
  split_ifs <;> rfl

theorem setAllLocs_ok {idx : Nat} {to_loc : Loc} :
    ∀ (ls : List Loc) (probs : Loc → List ℚ), (∀ l ∈ ls, idx < (probs l).length) →
      ∃ probs', setAllLocs probs idx to_loc ls = Except.ok probs' ∧
        (∀ l ∈ ls, probs' l = (probs l).set idx (if l = to_loc then 1 else 0)) ∧
        (∀ l, l ∉ ls → probs' l = probs l) := by
  intro ls
  induction ls with
  | nil =>
    intro probs h
    exact ⟨probs, rfl, by simp, fun l _ => rfl⟩
  | cons l1 rest ih =>
    intro probs h
    have h1 : idx < (probs l1).length := h l1 (by simp)
    have hrest : ∀ l ∈ rest,
        idx < ((updLoc probs l1 ((probs l1).set idx (if l1 = to_loc then 1 else 0))) l).length := by
      intro l hl
      unfold updLoc
      split
      · rw [List.length_set]
        exact h1
      · exact h l (by simp [hl])
    obtain ⟨probs', hok, hin, hout⟩ := ih _ hrest
    refine ⟨probs', ?_, ?_, ?_⟩
    · unfold setAllLocs
      rw [if_pos h1]
      exact hok
    · intro l hl
      by_cases hr : l ∈ rest
      · rw [hin l hr]
        unfold updLoc
        split
        · rename_i he
          rw [he, List.set_set]
        · rfl
      · have he : l = l1 := by
          rcases List.mem_cons.mp hl with h1' | h2'
          · exact h1'
          · exact absurd h2' hr
        subst he
        rw [hout l hr]
        unfold updLoc
        rw [if_pos rfl]
    · intro l hl
      have hl1 : l ≠ l1 := fun he => hl (by rw [he]; simp)
      have hlr : l ∉ rest := fun hm => hl (by simp [hm])
      rw [hout l hlr]
      unfold updLoc
      rw [if_neg hl1]

theorem card_index_lt52 {c : Card} (h2 : 2 ≤ c.rank) (h14 : c.rank ≤ 14) :
    card_to_index (PCard.card c) < 52 := by
  obtain ⟨s, r⟩ := c
  simp only [Card.rank] at h2 h14
  unfold card_to_index
  cases s <;> simp [Suit.index] <;> omega

theorem loc_mem_locOrder (l : Loc) : l ∈ locOrder := by
  cases l <;> decide

/-- C6: `move_card` on a card with zero probability at the source raises
the inconsistency `Exception` with the model unchanged; otherwise it
succeeds and leaves the card with probability 1 at the destination and 0
at every other location. -/
theorem C6_move_card (m : ProbabilisticModel) (c : Card) (A B : Loc)
    (hwf : m.wf) (h2 : 2 ≤ c.rank) (h14 : c.rank ≤ 14) :
    ((m.card_probabilities A)[card_to_index (PCard.card c)]? = Option.some 0 →
        m.move_card (PCard.card c) A B = Except.error (PyErr.exception, m)) ∧
    (∀ q, (m.card_probabilities A)[card_to_index (PCard.card c)]? = Option.some q → q ≠ 0 →
        ∃ m', m.move_card (PCard.card c) A B = Except.ok m' ∧
          (m'.card_probabilities B)[card_to_index (PCard.card c)]? = Option.some 1 ∧
          ∀ L, L ≠ B → (m'.card_probabilities L)[card_to_index (PCard.card c)]? = Option.some 0) := by
  have hidx := card_index_lt52 h2 h14
  constructor
  · intro hq
    unfold ProbabilisticModel.move_card
    simp only [hq]
    simp
  · intro q hq hq0
    obtain ⟨u, hu⟩ : ∃ u, m.unseen_cards[card_to_index (PCard.card c)]? = Option.some u := by
      rw [List.getElem?_eq_getElem (by rw [hwf.2]; exact hidx)]
      exact ⟨_, rfl⟩
    have hlen : ∀ l ∈ locOrder,
        card_to_index (PCard.card c) <
          ((m.move_bookkeeping (PCard.card c) A B (card_to_index (PCard.card c)) u).card_probabilities l).length := by
      intro l _
      rw [move_bookkeeping_probs, hwf.1 l]
      exact hidx
    obtain ⟨probs', hok, hin, hout⟩ :=
      @setAllLocs_ok (card_to_index (PCard.card c)) B locOrder _ hlen
    refine ⟨{ m.move_bookkeeping (PCard.card c) A B (card_to_index (PCard.card c)) u with card_probabilities := probs' }, ?_, ?_, ?_⟩
    · unfold ProbabilisticModel.move_card
      simp only [hq]
      rw [if_neg hq0]
      simp only [hu, hok]
    · dsimp only
      have hB := hin B (loc_mem_locOrder B)
      rw [move_bookkeeping_probs] at hB
      simp only [hB, if_pos rfl]
      exact List.getElem?_set_self (by rw [hwf.1 B]; exact hidx)
    · intro L hL
      dsimp only
      have hLin := hin L (loc_mem_locOrder L)
      rw [move_bookkeeping_probs] at hLin
      simp only [hLin, if_neg hL]
      exact List.getElem?_set_self (by rw [hwf.1 L]; exact hidx)

theorem index_to_card_lt52 {i : Nat} (h : i < 52) :
    ∃ c : Card, index_to_card i = Option.some (PCard.card c) := by
  interval_cases i <;> exact ⟨_, rfl⟩

theorem collect_spec (top : PCard) (magic : List (Nat × MagicCard)) :
    ∀ pairs : List (Nat × ℚ),
      (∀ pr ∈ pairs, ∃ c : Card, index_to_card pr.fst = Option.some (PCard.card c)) →
      collect_playable top magic pairs = Except.ok (pairs.filterMap (playable_entry top magic)) := by
  intro pairs
  induction pairs with
  | nil => intro h; rfl
  | cons pr rest ih =>
    intro h
    obtain ⟨i, q⟩ := pr
    obtain ⟨c, hc⟩ := h (i, q) (by simp)
    have hrest := ih (fun x hx => h x (List.mem_cons_of_mem (i, q) hx))
    unfold collect_playable
    simp only [hc]
    by_cases hq : q = 0
    · subst hq
      rw [hrest]
      simp [List.filterMap_cons, playable_entry, hc]
    · rw [if_neg hq, hrest]
      by_cases hcp : can_play_card_free c top magic
      · simp [List.filterMap_cons, playable_entry, hc, hq, hcp]
      · simp [List.filterMap_cons, playable_entry, hc, hq, hcp]

theorem prod_one_sub_bounds {l : List ℚ} (h : ∀ q ∈ l, 0 ≤ q ∧ q ≤ 1) :
    0 ≤ (l.map (fun q => 1 - q)).prod ∧ (l.map (fun q => 1 - q)).prod ≤ 1 := by
  induction l with
  | nil => simp
  | cons q rest ih =>
    obtain ⟨hq0, hq1⟩ := h q (by simp)
    obtain ⟨ih0, ih1⟩ := ih (fun x hx => h x (List.mem_cons_of_mem q hx))
    simp only [List.map_cons, List.prod_cons]
    constructor
    · exact mul_nonneg (by linarith) ih0
    · exact mul_le_one₀ (by linarith) ih0 ih1

theorem prod_one_sub_lt_one {l : List ℚ} (h : ∀ q ∈ l, 0 ≤ q ∧ q ≤ 1)
    (h0 : ∀ q ∈ l, q ≠ 0) (hne : l ≠ []) : (l.map (fun q => 1 - q)).prod < 1 := by
  cases l with
  | nil => exact absurd rfl hne
  | cons q rest =>
    obtain ⟨hq0, hq1⟩ := h q (by simp)
    have hqne := h0 q (by simp)
    obtain ⟨ih0, ih1⟩ := prod_one_sub_bounds (fun x hx => h x (List.mem_cons_of_mem q hx))
    simp only [List.map_cons, List.prod_cons]
    have hlt : 1 - q < 1 := by
      have : 0 < q := lt_of_le_of_ne hq0 (Ne.symm hqne)
      linarith
    have hle : (1 - q) * (rest.map (fun q => 1 - q)).prod ≤ 1 - q :=
      mul_le_of_le_one_right (by linarith) ih1
    linarith

/-- C7: under per-card probabilities in [0,1], `get_playable_probability`
returns a probability in [0,1], equal to 0 exactly when no card with
nonzero probability at the location is legal on the given top card, and
otherwise equal to `1 − Π (1 − p_i)` over the playable candidates. -/
theorem C7_playable_probability (m : ProbabilisticModel) (loc : Loc) (top : PCard)
    (hwf : m.wf) (hp : ∀ q ∈ m.card_probabilities loc, 0 ≤ q ∧ q ≤ 1) :
    ∃ (r : ℚ) (cands : List (PCard × ℚ)),
      m.get_playable_probability loc top = Except.ok r ∧
      m.playable_card_probs loc top = Except.ok cands ∧
      0 ≤ r ∧ r ≤ 1 ∧
      (r = 0 ↔ cands = []) ∧
      (cands = [] ↔ ∀ i q c, (m.card_probabilities loc)[i]? = Option.some q →
          index_to_card i = Option.some (PCard.card c) → q ≠ 0 →
          can_play_card_free c top magic_cards = false) ∧
      (cands ≠ [] → r = 1 - (cands.map (fun pr => 1 - pr.snd)).prod) := by
  have hvalid : ∀ pr ∈ (m.card_probabilities loc).enum,
      ∃ c, index_to_card pr.fst = Option.some (PCard.card c) := by
    intro pr hpr
    have h2 := List.mem_enum_iff_getElem?.mp hpr
    have h3 : pr.fst < (m.card_probabilities loc).length := by
      by_contra hge
      rw [List.getElem?_eq_none (by omega)] at h2
      simp at h2
    rw [hwf.1 loc] at h3
    exact index_to_card_lt52 h3
  have hcands := collect_spec top magic_cards (m.card_probabilities loc).enum hvalid
  have hmem : ∀ pr ∈ (m.card_probabilities loc).enum.filterMap (playable_entry top magic_cards),
      pr.snd ≠ 0 ∧ 0 ≤ pr.snd ∧ pr.snd ≤ 1 := by
    intro pr hpr
    obtain ⟨e, he, hfe⟩ := List.mem_filterMap.mp hpr
    unfold playable_entry at hfe
    split at hfe
    · rename_i c hic
      split at hfe
      · rename_i hcond
        have hpr2 : pr = (PCard.card c, e.snd) := (Option.some.inj hfe).symm
        have hq : e.snd ∈ m.card_probabilities loc :=
          List.getElem?_mem (List.mem_enum_iff_getElem?.mp he)
        obtain ⟨hb0, hb1⟩ := hp e.snd hq
        rw [hpr2]
        exact ⟨hcond.1, hb0, hb1⟩
      · simp at hfe
    · simp at hfe
  cases hc : (m.card_probabilities loc).enum.filterMap (playable_entry top magic_cards) with
  | nil =>
    refine ⟨0, [], ?_, ?_, le_refl 0, by norm_num, by simp, ?_, by simp⟩
    · unfold ProbabilisticModel.get_playable_probability ProbabilisticModel.playable_card_probs
      rw [hcands, hc]
    · unfold ProbabilisticModel.playable_card_probs
      rw [hcands, hc]
    · constructor
      · intro _ i q c hq hic hq0
        have he : (i, q) ∈ (m.card_probabilities loc).enum :=
          List.mk_mem_enum_iff_getElem?.mpr hq
        have hnone := List.filterMap_eq_nil_iff.mp hc (i, q) he
        unfold playable_entry at hnone
        rw [hic] at hnone
        simp only [] at hnone
        by_contra hcp
        have hcp2 : can_play_card_free c top magic_cards = true := by
          cases hx : can_play_card_free c top magic_cards
          · exact absurd hx hcp
          · rfl
        rw [if_pos ⟨hq0, hcp2⟩] at hnone
        exact absurd hnone (by simp)
      · intro _
        rfl
  | cons hd tl =>
    rw [hc] at hmem
    have hsnd : ∀ q ∈ (hd :: tl).map Prod.snd, 0 ≤ q ∧ q ≤ 1 := by
      intro q hq
      obtain ⟨pr, hpr, hpq⟩ := List.mem_map.mp hq
      rw [← hpq]
      exact ⟨(hmem pr hpr).2.1, (hmem pr hpr).2.2⟩
    have hsnd0 : ∀ q ∈ (hd :: tl).map Prod.snd, q ≠ 0 := by
      intro q hq
      obtain ⟨pr, hpr, hpq⟩ := List.mem_map.mp hq
      rw [← hpq]
      exact (hmem pr hpr).1
    have hrw : (hd :: tl).map (fun pr : PCard × ℚ => 1 - pr.snd)
        = ((hd :: tl).map Prod.snd).map (fun q => 1 - q) := by
      rw [List.map_map]
      rfl
    obtain ⟨hpb0, hpb1⟩ := prod_one_sub_bounds hsnd
    have hplt := prod_one_sub_lt_one hsnd hsnd0 (by simp)
    refine ⟨1 - ((hd :: tl).map (fun pr => 1 - pr.snd)).prod, hd :: tl, ?_, ?_, ?_, ?_, ?_, ?_, fun _ => rfl⟩
    · unfold ProbabilisticModel.get_playable_probability ProbabilisticModel.playable_card_probs
      rw [hcands, hc]
    · unfold ProbabilisticModel.playable_card_probs
      rw [hcands, hc]
    · rw [hrw]
      linarith
    · rw [hrw]
      linarith
    · constructor
      · intro h0
        exfalso
        rw [hrw] at h0
        have : ((hd :: tl).map Prod.snd).map (fun q => 1 - q) = ((hd :: tl).map Prod.snd).map (fun q => 1 - q) := rfl
        linarith [hplt]
      · intro h0
        simp at h0
    · constructor
      · intro h0
        simp at h0
      · intro hall
        exfalso
        obtain ⟨e, he, hfe⟩ := List.mem_filterMap.mp (hc ▸ List.mem_cons_self hd tl)
        unfold playable_entry at hfe
        split at hfe
        · rename_i c hic
          split at hfe
          · rename_i hcond
            have hq : (m.card_probabilities loc)[e.fst]? = Option.some e.snd :=
              List.mem_enum_iff_getElem?.mp he
            have := hall e.fst e.snd c hq hic hcond.1
            rw [this] at hcond
            simp at hcond
          · simp at hfe
        · simp at hfe

/-- C6 witness: moving the 2 of hearts from the deck to the player's
hand in the fresh model yields certainty at the destination. -/
theorem C6_witness :
    ∃ m', ProbabilisticModel.fresh.move_card (PCard.card { suit := Suit.h, rank := 2 })
        Loc.deck Loc.player_hand = Except.ok m' ∧
      (m'.card_probabilities Loc.player_hand)[card_to_index (PCard.card { suit := Suit.h, rank := 2 })]?
        = Option.some 1 ∧
      ∀ L, L ≠ Loc.player_hand →
        (m'.card_probabilities L)[card_to_index (PCard.card { suit := Suit.h, rank := 2 })]?
          = Option.some 0 :=
  (C6_move_card ProbabilisticModel.fresh { suit := Suit.h, rank := 2 } Loc.deck Loc.player_hand
      ⟨fun loc => by cases loc <;> rfl, rfl⟩ (by decide) (by decide)).2 1 rfl (by norm_num)

/-- C7 witness: in the fresh model every card sits in the deck with
probability 1, so the at-least-one-playable probability there is
well-defined and within bounds. -/
theorem C7_witness :
    ∃ (r : ℚ) (cands : List (PCard × ℚ)),
      ProbabilisticModel.fresh.get_playable_probability Loc.deck PCard.noCard = Except.ok r ∧
      ProbabilisticModel.fresh.playable_card_probs Loc.deck PCard.noCard = Except.ok cands ∧
      0 ≤ r ∧ r ≤ 1 ∧
      (r = 0 ↔ cands = []) ∧
      (cands = [] ↔ ∀ i q c, (ProbabilisticModel.fresh.card_probabilities Loc.deck)[i]? = Option.some q →
          index_to_card i = Option.some (PCard.card c) → q ≠ 0 →
          can_play_card_free c PCard.noCard magic_cards = false) ∧
      (cands ≠ [] → r = 1 - (cands.map (fun pr => 1 - pr.snd)).prod) :=
  C7_playable_probability ProbabilisticModel.fresh Loc.deck PCard.noCard
    ⟨fun loc => by cases loc <;> rfl, rfl⟩
    (fun q hq => by
      simp [ProbabilisticModel.fresh, List.mem_replicate] at hq
      rw [hq]
      norm_num)

/-- C9: codec round trip — for every valid card the index is
`(rank − 2) + 13·suit_index`, lies in [0,51], and `index_to_card`
inverts it; conversely every index in [0,51] decodes to a card that
encodes back to the same index. -/
theorem C9_codec_round_trip :
    (∀ c : Card, 2 ≤ c.rank → c.rank ≤ 14 →
        card_to_index (PCard.card c) = (c.rank - 2) + 13 * c.suit.index ∧
        card_to_index (PCard.card c) ≤ 51 ∧
        index_to_card (card_to_index (PCard.card c)) = Option.some (PCard.card c)) ∧
    (∀ i : Nat, i ≤ 51 → ∃ pc, index_to_card i = Option.some pc ∧ card_to_index pc = i) := by
  constructor
  · intro c h2 h14
    obtain ⟨s, r⟩ := c
    simp only [Card.rank] at h2 h14
    refine ⟨rfl, ?_, ?_⟩ <;> (cases s <;> interval_cases r <;> decide)
  · intro i hi
    interval_cases i <;> exact ⟨_, rfl, by decide⟩

/-- C9 witness: the round trip evaluated on the ace of spades (index 51). -/
theorem C9_witness :
    index_to_card (card_to_index (PCard.card { suit := Suit.s, rank := 14 }))
        = Option.some (PCard.card { suit := Suit.s, rank := 14 }) ∧
      ∃ pc, index_to_card 51 = Option.some pc ∧ card_to_index pc = 51 :=
  ⟨(C9_codec_round_trip.1 { suit := Suit.s, rank := 14 } (by decide) (by decide)).2.2,
    C9_codec_round_trip.2 51 (by decide)⟩
